import Mathlib

/-
Verification development for the garden-simulator cultivation engine
(src/main.py).  The Python source is shallowly embedded: machine floats
are modelled as exact rationals, Python dicts as association lists
(first-match lookup, in-place replacement on insert), and Python list
indexing as an Option-valued access that reproduces negative-index
wrapping and the IndexError case (returning none).
-/

set_option maxHeartbeats 1000000
set_option maxRecDepth 8000

/-! ## Tile grid (class Map) -/

/-- Tile kinds produced by Map.generate_map: the strings
'water', 'soil', 'grass', 'stone', 'sell_area'. -/
inductive TileKind where
  | water
  | soil
  | grass
  | stone
  | sell_area
deriving DecidableEq

/-- MAP_WIDTH constant of the source (150). -/
def MAP_WIDTH : Int := 150

/-- MAP_HEIGHT constant of the source (150). -/
def MAP_HEIGHT : Int := 150

/-- Python list indexing l[i]: a non-negative index in range reads
directly, a negative index wraps from the end, and anything else raises
IndexError (modelled as none). -/
def pyGet (l : List α) (i : Int) : Option α :=
  if 0 ≤ i ∧ i < (l.length : Int) then l.get? i.toNat
  else if -(l.length : Int) ≤ i ∧ i < 0 then l.get? ((l.length : Int) + i).toNat
  else none

/-- MapGrid models Map.tiles: a list of rows, each row a list of tile
kinds; the generated grid is 150 x 150.  The concrete contents come from
a floating-point noise function, so theorems are parametric in the grid
and constrain only its dimensions via mapWF. -/
abbrev MapGrid : Type := List (List TileKind)

/-- Evaluation of the Python expression self.tiles[y][x]: first index the
row list by y, then the row by x, propagating IndexError as none. -/
def tileAt (m : MapGrid) (x y : Int) : Option TileKind :=
  (pyGet m y).bind (fun row => pyGet row x)

/-- Dimension invariant of the generated map: 150 rows of length 150. -/
def mapWF (m : MapGrid) : Prop :=
  m.length = 150 ∧ ∀ row ∈ m, row.length = 150

/-- Map.is_walkable: explicit bounds guard returning False, then the tile
is walkable iff it is not water. -/
def is_walkable (m : MapGrid) (x y : Int) : Bool :=
  if x < 0 ∨ MAP_WIDTH ≤ x ∨ y < 0 ∨ MAP_HEIGHT ≤ y then false
  else decide (tileAt m x y ≠ some TileKind.water)

/-- Map.is_tillable: explicit bounds guard returning False, then the tile
must be soil or grass. -/
def is_tillable (m : MapGrid) (x y : Int) : Bool :=
  if x < 0 ∨ MAP_WIDTH ≤ x ∨ y < 0 ∨ MAP_HEIGHT ≤ y then false
  else decide (tileAt m x y = some TileKind.soil ∨ tileAt m x y = some TileKind.grass)

/-- Map.is_sell_area: the source has no bounds guard and evaluates
self.tiles[y][x] == 'sell_area' directly, so the result is an Option:
none models the IndexError raised on an out-of-range index. -/
def is_sell_area (m : MapGrid) (x y : Int) : Option Bool :=
  (tileAt m x y).map (fun k => decide (k = TileKind.sell_area))

/-- Concrete 150 x 150 grid used to evaluate the dimension-dependent
statements on an explicit input. -/
def demoGrid : MapGrid := List.replicate 150 (List.replicate 150 TileKind.grass)

/-! ## Player tool tables -/

/-- Player.get_fertilizer_multiplier, first (shadowed) definition:
multipliers = [1.0, 2.5, 50.0, 500.0].  Python resolves the later
definition, so this method is dead code. -/
def get_fertilizer_multiplier_shadowed (lvl : Nat) : ℚ :=
  [(1 : ℚ), 5/2, 50, 500].getD lvl 0

/-- Player.get_fertilizer_multiplier, second definition, the one Python
actually binds: multipliers = [1.0, 2.0, 10.0, 100.0].  Levels are always
0..3 in the source; the out-of-range default 0 is never reached. -/
def get_fertilizer_multiplier (lvl : Nat) : ℚ :=
  [(1 : ℚ), 2, 10, 100].getD lvl 0

/-- Player.get_planting_range: ranges = [2, 8, 20, 100] indexed by
hoe_level. -/
def get_planting_range (lvl : Nat) : Nat :=
  [2, 8, 20, 100].getD lvl 0

/-- Player.get_harvest_range: ranges = [1, 4, 8, 15] indexed by
shovel_level. -/
def get_harvest_range (lvl : Nat) : Nat :=
  [1, 4, 8, 15].getD lvl 0

/-! ## Sell-value lookup table (Shop.calculate_sell_value) -/

/-- Keys list of Shop.calculate_sell_value, transcribed verbatim. -/
def sell_value_keys : List ℚ :=
  [1, 2, 3, 5, 8, 15, 20, 25, 30, 35, 40, 50,
   60, 80, 100, 120, 150, 180, 200, 250, 280, 300,
   320, 350, 380, 400, 420, 450, 480, 500, 500, 750,
   1000, 1250, 1500, 1750, 2000, 2250, 2500, 2750, 3000,
   3250, 3500, 3750, 4000, 4250, 4500, 4750, 5000, 5000,
   10000, 15000, 20000, 25000, 30000, 35000, 40000, 45000,
   50000, 55000, 60000, 65000, 70000, 75000, 80000, 85000,
   90000, 95000, 100000, 200000, 1000000, 3000000, 5000000, 10000000]

/-- Values list of Shop.calculate_sell_value, transcribed verbatim. -/
def sell_value_values : List ℚ :=
  [(1.01 : ℚ), 2.06, 3.10, 6.30, 11, 26, 32, 40, 40, 55, 52, 68,
   68, 120, 130, 228, 250, 240, 320, 411, 515, 570,
   614, 676, 737, 780, 882, 945, 1027, 1080, 1090, 1725,
   2350, 3063, 3720, 4393, 5000, 5648, 6425, 7233, 7950,
   8938, 9730, 10463, 11240, 11985, 12780, 13538, 14450,
   14750, 30000, 45750, 68000, 90000, 113700, 136500, 160000,
   184500, 210000, 236500, 261000, 284050, 308000, 331500,
   355200, 379100, 403200, 427500, 451000, 1200000, 7000000,
   25500000, 500000000, 12000000000]

/-- Lookup in the dict built by dict(zip(keys, values)): on duplicate
keys the later pair overwrites the earlier one, and a missing key gives
the default None of dict.get. -/
def dictGet (k : ℚ) (pairs : List (ℚ × ℚ)) : Option ℚ :=
  pairs.foldl (fun acc p => if p.1 = k then some p.2 else acc) none

/-- Shop.calculate_sell_value: builds library = dict(zip(keys, values))
and returns library.get(seed_cost), i.e. None when the cost is absent.
The growth_time argument of the source is unused by the lookup. -/
def calculate_sell_value (seed_cost : ℚ) : Option ℚ :=
  dictGet seed_cost (sell_value_keys.zip sell_value_values)

/-- Catalog entry as constructed by Shop.create_plant_categories: the
sell value stored in the PlantType is whatever calculate_sell_value
returned, with no check that the lookup succeeded. -/
structure PlantTypeM where
  name : String
  seed_cost : ℚ
  sell_value : Option ℚ
  growth_time : ℚ
deriving DecidableEq

/-- Catalog construction step for one plant: sell_value =
calculate_sell_value(cost) is stored directly into the entry. -/
def mkCatalogEntry (name : String) (cost : ℚ) (time : ℚ) : PlantTypeM :=
  { name := name, seed_cost := cost, sell_value := calculate_sell_value cost,
    growth_time := time }

/-! ## Claim C10 -/

/-- C10: because Player defines get_fertilizer_multiplier twice and the
second definition shadows the first, the effective multipliers for tiers
0..3 are exactly 1, 2, 10, 100, and differ (at tiers 1..3) from the
shadowed 1, 2.5, 50, 500 table. -/
theorem c10_effective_fertilizer_multipliers :
    (get_fertilizer_multiplier 0 = 1 ∧ get_fertilizer_multiplier 1 = 2 ∧
     get_fertilizer_multiplier 2 = 10 ∧ get_fertilizer_multiplier 3 = 100) ∧
    (get_fertilizer_multiplier 1 ≠ get_fertilizer_multiplier_shadowed 1 ∧
     get_fertilizer_multiplier 2 ≠ get_fertilizer_multiplier_shadowed 2 ∧
     get_fertilizer_multiplier 3 ≠ get_fertilizer_multiplier_shadowed 3) := by
  norm_num [get_fertilizer_multiplier, get_fertilizer_multiplier_shadowed]

/-! ## Claim C3 -/

/-- C3 evidence: a seed cost absent from the table (4 is between the keys
3 and 5) makes calculate_sell_value return None, and the catalog entry is
nevertheless constructed with sell_value = None: nothing fails fast. -/
theorem c3_missing_cost_constructs_undefined_entry :
    calculate_sell_value 4 = none ∧
    (mkCatalogEntry ("Mystery Plant") 4 10).sell_value = none ∧
    (mkCatalogEntry ("Radish") 1 5).sell_value = some (1.01 : ℚ) := by
  norm_num [mkCatalogEntry, calculate_sell_value, dictGet, sell_value_keys,
    sell_value_values]

/-! ## Claim C9 -/

/-- Dimension invariant holds for the concrete demonstration grid. -/
theorem demoGrid_mapWF : mapWF demoGrid := by
  unfold mapWF demoGrid
  refine ⟨by simp, ?_⟩
  intro row hrow
  rw [List.eq_of_mem_replicate hrow]
  simp

/-- C9 counterexample: on a 150 x 150 grid (the generated map dimensions),
is_sell_area at the in-claim coordinate (150, 0) does not return a
boolean: the unguarded self.tiles[0][150] raises IndexError (none). -/
theorem c9_counterexample_sell_area_crashes :
    mapWF demoGrid ∧ is_sell_area demoGrid 150 0 = none := by
  refine ⟨demoGrid_mapWF, ?_⟩
  rfl

/-- Result of pyGet is always an element of the list. -/
theorem pyGet_mem {l : List α} {i : Int} {a : α} (h : pyGet l i = some a) :
    a ∈ l := by
  unfold pyGet at h
  split_ifs at h <;> exact List.get?_mem h

/-- Index in the Python-valid window [-len, len) always reads an element. -/
theorem pyGet_isSome {l : List α} {i : Int}
    (h1 : -(l.length : Int) ≤ i) (h2 : i < (l.length : Int)) :
    (pyGet l i).isSome = true := by
  unfold pyGet
  by_cases h0 : 0 ≤ i
  · rw [if_pos ⟨h0, h2⟩]
    have hlt : i.toNat < l.length := by omega
    rw [List.get?_eq_getElem?, List.getElem?_eq_getElem hlt]
    rfl
  · rw [if_neg (by omega), if_pos ⟨h1, by omega⟩]
    have hlt : ((l.length : Int) + i).toNat < l.length := by omega
    rw [List.get?_eq_getElem?, List.getElem?_eq_getElem hlt]
    rfl

/-- Index at or beyond the length (the IndexError case). -/
theorem pyGet_eq_none {l : List α} {i : Int} (h : (l.length : Int) ≤ i) :
    pyGet l i = none := by
  unfold pyGet
  rw [if_neg (by omega), if_neg (by omega)]

/-- C9 amended: is_walkable and is_tillable are total, returning false on
every out-of-bounds coordinate, and in-bounds coordinates never crash
is_sell_area either; but is_sell_area raises IndexError (none) whenever
the row index y is at or beyond the height, or x is at or beyond the
width while y selects an existing row (negative indices in -150..-1 wrap
pythonically instead of being rejected). -/
theorem c9_amended_bounds_behaviour (m : MapGrid) (x y : Int) :
    (¬ (0 ≤ x ∧ x < 150 ∧ 0 ≤ y ∧ y < 150) →
       is_walkable m x y = false ∧ is_tillable m x y = false) ∧
    (mapWF m → 0 ≤ x → x < 150 → 0 ≤ y → y < 150 →
       (is_sell_area m x y).isSome = true) ∧
    (mapWF m → 150 ≤ y → is_sell_area m x y = none) ∧
    (mapWF m → -150 ≤ y → y < 150 → 150 ≤ x → is_sell_area m x y = none) := by
  refine ⟨?_, ?_, ?_, ?_⟩
  · intro hob
    constructor
    · unfold is_walkable MAP_WIDTH MAP_HEIGHT
      rw [if_pos (by omega)]
    · unfold is_tillable MAP_WIDTH MAP_HEIGHT
      rw [if_pos (by omega)]
  · rintro ⟨hlen, hrows⟩ hx0 hx1 hy0 hy1
    unfold is_sell_area tileAt
    have hy : (pyGet m y).isSome = true := pyGet_isSome (by omega) (by omega)
    obtain ⟨row, hrow⟩ := Option.isSome_iff_exists.mp hy
    have hrl : row.length = 150 := hrows row (pyGet_mem hrow)
    have hxs : (pyGet row x).isSome = true := pyGet_isSome (by omega) (by omega)
    obtain ⟨k, hk⟩ := Option.isSome_iff_exists.mp hxs
    rw [hrow]
    simp [hk]
  · rintro ⟨hlen, hrows⟩ hy
    unfold is_sell_area tileAt
    rw [pyGet_eq_none (by omega)]
    rfl
  · rintro ⟨hlen, hrows⟩ hy0 hy1 hx
    unfold is_sell_area tileAt
    have hy : (pyGet m y).isSome = true := pyGet_isSome (by omega) (by omega)
    obtain ⟨row, hrow⟩ := Option.isSome_iff_exists.mp hy
    have hrl : row.length = 150 := hrows row (pyGet_mem hrow)
    rw [hrow]
    simp [pyGet_eq_none (l := row) (i := x) (by omega)]

/-- Witness for c9_amended_bounds_behaviour: on the concrete 150 x 150
grid, the coordinate (0, 150) is below the grid and the lookup crashes. -/
theorem c9_amended_bounds_behaviour_witness :
    mapWF demoGrid ∧ is_sell_area demoGrid 0 150 = none :=
  ⟨demoGrid_mapWF,
   (c9_amended_bounds_behaviour demoGrid 0 150).2.2.1 demoGrid_mapWF (by norm_num)⟩

/-! ## Growth state machine (class Plant) -/

/-- PlantGrowthStage enum of the source, values 0..4. -/
inductive PlantGrowthStage where
  | seed
  | sprout
  | young
  | mature
  | harvestable
deriving DecidableEq

/-- Numeric value of the PlantGrowthStage enum member, giving the forward
order SEED < SPROUT < YOUNG < MATURE < HARVESTABLE. -/
def stageIdx : PlantGrowthStage → Nat
  | .seed => 0
  | .sprout => 1
  | .young => 2
  | .mature => 3
  | .harvestable => 4

/-- Mutable growth state of one Plant instance: growth_time is the
plant_type.growth_time parameter, time_remaining / stage / harvestable the
mutable attributes touched by Plant.update.  Machine floats are modelled
as exact rationals. -/
structure PlantState where
  growth_time : ℚ
  time_remaining : ℚ
  stage : PlantGrowthStage
  harvestable : Bool
deriving DecidableEq

/-- Stage recomputation at the end of Plant.update: HARVESTABLE when
time_remaining has hit zero, else thresholds 0.8 / 0.5 / 0.2 on
progress = 1 - time_remaining / growth_time. -/
def stage_of (time_remaining growth_time : ℚ) : PlantGrowthStage :=
  if time_remaining ≤ 0 then .harvestable
  else if 1 - time_remaining / growth_time ≥ 0.8 then .mature
  else if 1 - time_remaining / growth_time ≥ 0.5 then .young
  else if 1 - time_remaining / growth_time ≥ 0.2 then .sprout
  else .seed

namespace Plant

/-- Plant.update: no-op when already harvestable; otherwise subtract
elapsed * weather_multiplier * fertilizer_multiplier * soil_multiplier
from time_remaining (clamped at 0, soil tiles give 1.1), then recompute
the stage and the harvestable flag.  The source reads elapsed =
time.time() - self.last_update; it is passed here as the elapsed
argument. -/
def update (p : PlantState) (elapsed weather_multiplier fertilizer_multiplier : ℚ)
    (tile_type : TileKind) : PlantState :=
  if p.harvestable then p
  else
    let soil_multiplier : ℚ := if tile_type = TileKind.soil then 1.1 else 1
    let total_multiplier := weather_multiplier * fertilizer_multiplier * soil_multiplier
    let time_reduction := elapsed * total_multiplier
    let tr := max 0 (p.time_remaining - time_reduction)
    { p with time_remaining := tr,
             stage := stage_of tr p.growth_time,
             harvestable := decide (tr ≤ 0) }

end Plant

/-- Monotonicity of the stage computation: a smaller (or equal) remaining
time never yields an earlier stage. -/
theorem stage_of_mono {gt a b : ℚ} (hgt : 0 < gt) (h : b ≤ a) :
    stageIdx (stage_of a gt) ≤ stageIdx (stage_of b gt) := by
  have hdiv : b / gt ≤ a / gt := by
    apply div_le_div_of_nonneg_right h hgt.le
  unfold stage_of
  split_ifs <;> simp only [stageIdx] <;> first | omega | (exfalso; linarith)

/-! ## Claim C5 -/

/-- C5: growth is monotone and Harvestable is absorbing.  The rational
hypotheses beyond non-negativity of elapsed time and multipliers are the
state invariants every reachable cultivar satisfies: positive growth
duration (true of every plantable catalog entry), non-negative clamped
remaining time, a stage that matches the stage computation, and remaining
time already at zero whenever the harvestable flag is set. -/
theorem c5_growth_monotone_harvestable_absorbing
    (p : PlantState) (elapsed wm fm : ℚ) (tile : TileKind)
    (helapsed : 0 ≤ elapsed) (hwm : 0 ≤ wm) (hfm : 0 ≤ fm)
    (hgt : 0 < p.growth_time) (htr : 0 ≤ p.time_remaining)
    (hstage : p.stage = stage_of p.time_remaining p.growth_time)
    (hharv : p.harvestable = true → p.time_remaining ≤ 0) :
    (Plant.update p elapsed wm fm tile).time_remaining ≤ p.time_remaining ∧
    stageIdx p.stage ≤ stageIdx (Plant.update p elapsed wm fm tile).stage ∧
    (p.harvestable = true →
       Plant.update p elapsed wm fm tile = p ∧ p.time_remaining = 0) ∧
    ((Plant.update p elapsed wm fm tile).harvestable = true →
       (Plant.update p elapsed wm fm tile).time_remaining = 0) := by
  unfold Plant.update
  by_cases hp : p.harvestable = true
  · rw [if_pos hp]
    have h0 : p.time_remaining = 0 := le_antisymm (hharv hp) htr
    exact ⟨le_refl _, le_refl _, fun _ => ⟨rfl, h0⟩, fun _ => h0⟩
  · rw [if_neg hp]
    have hsoil : (0 : ℚ) ≤ (if tile = TileKind.soil then (1.1 : ℚ) else 1) := by
      split_ifs <;> norm_num
    have hred : 0 ≤ elapsed * (wm * fm * (if tile = TileKind.soil then (1.1 : ℚ) else 1)) := by
      positivity
    refine ⟨?_, ?_, ?_, ?_⟩
    · exact max_le (by linarith) (by linarith)
    · rw [hstage]
      exact stage_of_mono hgt (max_le (by linarith) (by linarith))
    · intro hc
      exact absurd hc hp
    · intro hc
      simp only [decide_eq_true_eq] at hc
      exact le_antisymm hc (le_max_left _ _)

/-- Fresh Radish-like cultivar state: growthDuration 100 seconds, full
remaining time, just planted. -/
def demoPlant : PlantState :=
  { growth_time := 100, time_remaining := 100, stage := .seed, harvestable := false }

/-- Witness for c5_growth_monotone_harvestable_absorbing at a concrete
freshly planted cultivar and one second of neutral growth. -/
theorem c5_growth_monotone_harvestable_absorbing_witness :
    (Plant.update demoPlant 1 1 1 TileKind.grass).time_remaining ≤
      demoPlant.time_remaining ∧
    stageIdx demoPlant.stage ≤
      stageIdx (Plant.update demoPlant 1 1 1 TileKind.grass).stage ∧
    (demoPlant.harvestable = true →
       Plant.update demoPlant 1 1 1 TileKind.grass = demoPlant ∧
       demoPlant.time_remaining = 0) ∧
    ((Plant.update demoPlant 1 1 1 TileKind.grass).harvestable = true →
       (Plant.update demoPlant 1 1 1 TileKind.grass).time_remaining = 0) :=
  c5_growth_monotone_harvestable_absorbing demoPlant 1 1 1 TileKind.grass
    (by norm_num) (by norm_num) (by norm_num)
    (by norm_num [demoPlant]) (by norm_num [demoPlant])
    (by norm_num [demoPlant, stage_of]) (by simp [demoPlant])

/-! ## Claim C7 -/

/-- Repeated Plant.update steps with weather multiplier 2.0 (rainy),
fertilizer multiplier 1.0 and a soil tile, starting from the fresh
100-second cultivar. -/
def growRainSoil (dts : List ℚ) : PlantState :=
  dts.foldl (fun p dt => Plant.update p dt 2 1 TileKind.soil) demoPlant

/-- Fold invariant for growRainSoil: remaining time is the clamped
100 - (11/5) * (elapsed so far), and the harvestable flag fires exactly
when that quantity reaches zero. -/
theorem growRainSoil_aux (dts : List ℚ) :
    ∀ (p : PlantState) (s : ℚ), (∀ d ∈ dts, 0 ≤ d) → 0 ≤ s →
    p.growth_time = 100 →
    p.time_remaining = max 0 (100 - 11/5 * s) →
    (p.harvestable = true ↔ 100 ≤ 11/5 * s) →
    (dts.foldl (fun q dt => Plant.update q dt 2 1 TileKind.soil) p).time_remaining
        = max 0 (100 - 11/5 * (s + dts.sum)) ∧
    ((dts.foldl (fun q dt => Plant.update q dt 2 1 TileKind.soil) p).harvestable = true
        ↔ 100 ≤ 11/5 * (s + dts.sum)) := by
  induction dts with
  | nil =>
    intro p s hnn hs hg htr hh
    simpa using ⟨htr, hh⟩
  | cons d rest ih =>
    intro p s hnn hs hg htr hh
    have hd : 0 ≤ d := hnn d (by simp)
    have hrest : ∀ x ∈ rest, 0 ≤ x := fun x hx => hnn x (by simp [hx])
    have h22 : ((2 : ℚ) * 1 * 1.1) = 11/5 := by norm_num
    rw [List.foldl_cons]
    have hstep :
        (Plant.update p d 2 1 TileKind.soil).growth_time = 100 ∧
        (Plant.update p d 2 1 TileKind.soil).time_remaining
            = max 0 (100 - 11/5 * (s + d)) ∧
        ((Plant.update p d 2 1 TileKind.soil).harvestable = true
            ↔ 100 ≤ 11/5 * (s + d)) := by
      unfold Plant.update
      by_cases hp : p.harvestable = true
      · rw [if_pos hp]
        have hth : 100 ≤ 11/5 * s := hh.mp hp
        have e1 : p.time_remaining = 0 := by
          rw [htr, max_eq_left (by linarith)]
        have e2 : max 0 (100 - 11/5 * (s + d)) = 0 :=
          max_eq_left (by linarith)
        exact ⟨hg, by rw [e1, e2], by rw [hh]; constructor <;> intro <;> linarith⟩
      · rw [if_neg hp]
        have hth : ¬ 100 ≤ 11/5 * s := fun hc => hp (hh.mpr hc)
        have e1 : p.time_remaining = 100 - 11/5 * s := by
          rw [htr, max_eq_right (by linarith)]
        refine ⟨hg, ?_, ?_⟩
        · show max 0 (p.time_remaining - d * (2 * 1 * (if TileKind.soil = TileKind.soil then (1.1:ℚ) else 1))) = _
          rw [if_pos rfl, h22, e1]
          ring_nf
        · show decide (max 0 (p.time_remaining - d * (2 * 1 * (if TileKind.soil = TileKind.soil then (1.1:ℚ) else 1))) ≤ 0) = true ↔ _
          rw [if_pos rfl, h22, e1]
          simp only [decide_eq_true_eq, max_le_iff, le_refl, true_and]
          constructor <;> intro <;> linarith
    have := ih (Plant.update p d 2 1 TileKind.soil) (s + d) hrest
      (by linarith) hstep.1 hstep.2.1 hstep.2.2
    simpa [add_assoc] using this

/-- C7: with weather multiplier 2.0, fertilizer multiplier 1.0 and a soil
tile, the effective rate is exactly 2.2x elapsed time: remaining time is
the clamp of 100 - 2.2 * (total elapsed), and the 100-second cultivar is
Harvestable exactly once cumulative elapsed time reaches 100/2.2 seconds,
and not before.  Arithmetic is modelled exactly over the rationals. -/
theorem c7_rainy_soil_exact_threshold (dts : List ℚ) (h : ∀ d ∈ dts, 0 ≤ d) :
    (growRainSoil dts).time_remaining = max 0 (100 - (2.2 : ℚ) * dts.sum) ∧
    ((growRainSoil dts).harvestable = true ↔ (100 : ℚ) / 2.2 ≤ dts.sum) ∧
    ((growRainSoil dts).harvestable = false ↔ dts.sum < (100 : ℚ) / 2.2) := by
  have key := growRainSoil_aux dts demoPlant 0 h le_rfl (by norm_num [demoPlant])
    (by norm_num [demoPlant]) (by norm_num [demoPlant])
  rw [zero_add] at key
  have hiff : (100 : ℚ) ≤ 11/5 * dts.sum ↔ (100 : ℚ) / 2.2 ≤ dts.sum := by
    rw [div_le_iff₀ (by norm_num)]
    constructor <;> intro <;> nlinarith
  have h225 : (2.2 : ℚ) = 11/5 := by norm_num
  have hk : ((growRainSoil dts).harvestable = true ↔ (100 : ℚ) / 2.2 ≤ dts.sum) :=
    key.2.trans hiff
  refine ⟨by rw [h225]; exact key.1, hk, ?_⟩
  constructor
  · intro hf
    by_contra hc
    rw [not_lt] at hc
    rw [hk.mpr hc] at hf
    cases hf
  · intro hlt
    cases hq : (growRainSoil dts).harvestable
    · rfl
    · exact absurd (hk.mp hq) (not_le.mpr hlt)

/-- Witness for c7_rainy_soil_exact_threshold: two 25-second steps reach
cumulative time 50 which is past the 500/11-second threshold. -/
theorem c7_rainy_soil_exact_threshold_witness :
    (growRainSoil [(25 : ℚ), 25]).time_remaining
        = max 0 (100 - (2.2 : ℚ) * ([(25 : ℚ), 25].sum)) ∧
    ((growRainSoil [(25 : ℚ), 25]).harvestable = true
        ↔ (100 : ℚ) / 2.2 ≤ [(25 : ℚ), 25].sum) ∧
    ((growRainSoil [(25 : ℚ), 25]).harvestable = false
        ↔ [(25 : ℚ), 25].sum < (100 : ℚ) / 2.2) :=
  c7_rainy_soil_exact_threshold [(25 : ℚ), 25] (by norm_num)

/-! ## Economy: tool tier purchases (tool branch of Shop.buy_seeds) -/

/-- Model of the three independently tiered tools of the Player. -/
inductive ToolType where
  | fertilizer
  | hoe
  | shovel
deriving DecidableEq

/-- Economy-relevant player state: wallet and the three tool tiers
(fertilizer_level, hoe_level, shovel_level, each 0..3 in the source). -/
structure PlayerEcon where
  money : ℚ
  fertilizer_level : Nat
  hoe_level : Nat
  shovel_level : Nat
deriving DecidableEq

/-- Current level of a tool, the current_level read in Shop.buy_seeds. -/
def tool_level (p : PlayerEcon) : ToolType → Nat
  | .fertilizer => p.fertilizer_level
  | .hoe => p.hoe_level
  | .shovel => p.shovel_level

/-- Level assignment performed on success in Shop.buy_seeds. -/
def set_tool_level (p : PlayerEcon) : ToolType → Nat → PlayerEcon
  | .fertilizer, l => { p with fertilizer_level := l }
  | .hoe, l => { p with hoe_level := l }
  | .shovel, l => { p with shovel_level := l }

/-- Tool branch of Shop.buy_seeds: required_level comes from
level_map = Iron 1, Gold 2, Diamond 3 applied to the item name, and
total_cost is the catalog seed_cost of the tool item.  The guards are in
source order: already owned (current >= required) fails, skipping a tier
(current != required - 1) fails, then sufficient money debits the wallet
and sets the level. -/
def buy_tool (p : PlayerEcon) (tool : ToolType) (required_level : Nat)
    (total_cost : ℚ) : PlayerEcon × Bool :=
  let current_level := tool_level p tool
  if required_level ≤ current_level then (p, false)
  else if current_level ≠ required_level - 1 then (p, false)
  else if total_cost ≤ p.money then
    (set_tool_level { p with money := p.money - total_cost } tool required_level, true)
  else (p, false)

/-- Tool items of the shop catalog: (name, tool, level_map level,
seed_cost). -/
def tool_products : List (String × ToolType × Nat × ℚ) :=
  [("Iron Fertilizer", .fertilizer, 1, 10000),
   ("Gold Fertilizer", .fertilizer, 2, 150000),
   ("Diamond Fertilizer", .fertilizer, 3, 2500000),
   ("Iron Hoe", .hoe, 1, 5000),
   ("Gold Hoe", .hoe, 2, 50000),
   ("Diamond Hoe", .hoe, 3, 250000),
   ("Iron Shovel", .shovel, 1, 20000),
   ("Gold Shovel", .shovel, 2, 100000),
   ("Diamond Shovel", .shovel, 3, 500000)]

/-- Reading a tool level after setting that same tool. -/
theorem tool_level_set_self (p : PlayerEcon) (tool : ToolType) (l : Nat) :
    tool_level (set_tool_level p tool l) tool = l := by
  cases tool <;> rfl

/-- Reading a different tool level after setting a tool. -/
theorem tool_level_set_other (p : PlayerEcon) (tool other : ToolType) (l : Nat)
    (h : other ≠ tool) :
    tool_level (set_tool_level p tool l) other = tool_level p other := by
  cases tool <;> cases other <;> first | rfl | exact absurd rfl h

/-- Setting a tool level does not touch the wallet. -/
theorem money_set_tool_level (p : PlayerEcon) (tool : ToolType) (l : Nat) :
    (set_tool_level p tool l).money = p.money := by
  cases tool <;> rfl

/-- Updating the wallet does not touch any tool level. -/
theorem tool_level_money (p : PlayerEcon) (m : ℚ) (tool : ToolType) :
    tool_level { p with money := m } tool = tool_level p tool := by
  cases tool <;> rfl

/-! ## Claim C8 -/

/-- C8: tool tiers advance strictly in order.  Buying tier t (Iron 1,
Gold 2, Diamond 3) succeeds iff the current tier is exactly t - 1 and the
wallet covers the cost; success sets the tier to t, debits exactly the
cost and leaves the other two tools alone; every failed purchase (already
owned, skipped tier, or insufficient funds) leaves the player completely
unchanged. -/
theorem c8_tool_tiers_strict_order (p : PlayerEcon) (tool : ToolType)
    (t : Nat) (cost : ℚ) (h1 : 1 ≤ t) :
    ((buy_tool p tool t cost).2 = true ↔
       (tool_level p tool = t - 1 ∧ cost ≤ p.money)) ∧
    ((buy_tool p tool t cost).2 = true →
       tool_level (buy_tool p tool t cost).1 tool = t ∧
       (buy_tool p tool t cost).1.money = p.money - cost ∧
       (∀ other, other ≠ tool →
          tool_level (buy_tool p tool t cost).1 other = tool_level p other)) ∧
    ((buy_tool p tool t cost).2 = false → (buy_tool p tool t cost).1 = p) := by
  unfold buy_tool
  by_cases howned : t ≤ tool_level p tool
  · rw [if_pos howned]
    refine ⟨?_, ?_, ?_⟩
    · simp only [Bool.false_eq_true, false_iff]
      rintro ⟨hl, _⟩
      omega
    · intro hc
      cases hc
    · intro _
      rfl
  · rw [if_neg howned]
    by_cases hskip : tool_level p tool ≠ t - 1
    · rw [if_pos hskip]
      refine ⟨?_, ?_, ?_⟩
      · simp only [Bool.false_eq_true, false_iff]
        rintro ⟨hl, _⟩
        exact hskip hl
      · intro hc
        cases hc
      · intro _
        rfl
    · rw [if_neg hskip]
      rw [not_not] at hskip
      by_cases hmoney : cost ≤ p.money
      · rw [if_pos hmoney]
        refine ⟨?_, ?_, ?_⟩
        · simp only [true_iff]
          exact ⟨hskip, hmoney⟩
        · intro _
          refine ⟨tool_level_set_self _ _ _, money_set_tool_level _ _ _, ?_⟩
          intro other hother
          rw [tool_level_set_other _ _ _ _ hother, tool_level_money]
        · intro hc
          cases hc
      · rw [if_neg hmoney]
        refine ⟨?_, ?_, ?_⟩
        · simp only [Bool.false_eq_true, false_iff]
          rintro ⟨_, hm⟩
          exact hmoney hm
        · intro hc
          cases hc
        · intro _
          rfl

/-- Witness for c8_tool_tiers_strict_order: a fresh player with 100000
money buying the Iron Hoe (tier 1, cost 5000). -/
theorem c8_tool_tiers_strict_order_witness :
    ((buy_tool ⟨100000, 0, 0, 0⟩ ToolType.hoe 1 5000).2 = true ↔
       (tool_level ⟨100000, 0, 0, 0⟩ ToolType.hoe = 1 - 1 ∧
        (5000 : ℚ) ≤ (PlayerEcon.mk 100000 0 0 0).money)) ∧
    ((buy_tool ⟨100000, 0, 0, 0⟩ ToolType.hoe 1 5000).2 = true →
       tool_level (buy_tool ⟨100000, 0, 0, 0⟩ ToolType.hoe 1 5000).1 ToolType.hoe = 1 ∧
       (buy_tool ⟨100000, 0, 0, 0⟩ ToolType.hoe 1 5000).1.money
           = (PlayerEcon.mk 100000 0 0 0).money - 5000 ∧
       (∀ other, other ≠ ToolType.hoe →
          tool_level (buy_tool ⟨100000, 0, 0, 0⟩ ToolType.hoe 1 5000).1 other
              = tool_level ⟨100000, 0, 0, 0⟩ other)) ∧
    ((buy_tool ⟨100000, 0, 0, 0⟩ ToolType.hoe 1 5000).2 = false →
       (buy_tool ⟨100000, 0, 0, 0⟩ ToolType.hoe 1 5000).1 = ⟨100000, 0, 0, 0⟩) :=
  c8_tool_tiers_strict_order ⟨100000, 0, 0, 0⟩ ToolType.hoe 1 5000 (by norm_num)

/-! ## Footprint geometry (Plant.get_occupied_tiles) -/

/-- Plant shapes of the source: 'rectangle', 'circle', 'star', 'curved'. -/
inductive Shape where
  | rectangle
  | circle
  | star
  | curved
deriving DecidableEq

/-- Cultivar: one planted Plant instance.  The plant_type fields the
spatial model reads (name, shape, size = (w, h)) are inlined; x, y is the
origin tile and harvestable is the flag read by handle_harvesting.  Under
the field invariant two live cultivars are identical iff structurally
equal, which models Python object identity. -/
structure Cultivar where
  name : String
  shape : Shape
  w : Nat
  h : Nat
  x : Int
  y : Int
  harvestable : Bool
deriving DecidableEq

/-- Python range(a, b) over the integers. -/
def intRange (a b : Int) : List Int :=
  (List.range (b - a).toNat).map (fun i : Nat => a + (i : Int))

/-- Plant.get_occupied_tiles: all tiles the plant occupies, by shape.
rectangle: the full w x h box; circle: inclusive squared-distance disc of
radius min(w,h)//2 around the box centre; star: the fixed 7-offset
pattern; curved: the box minus its four corner cells. -/
def get_occupied_tiles (c : Cultivar) : List (Int × Int) :=
  match c.shape with
  | .rectangle =>
      (List.range c.h).flatMap (fun dy : Nat =>
        (List.range c.w).map (fun dx : Nat => (c.x + (dx : Int), c.y + (dy : Int))))
  | .circle =>
      let center_x := c.x + ((c.w / 2 : Nat) : Int)
      let center_y := c.y + ((c.h / 2 : Nat) : Int)
      let radius : Nat := (min c.w c.h) / 2
      (intRange (-(radius : Int)) ((radius : Int) + 1)).flatMap (fun dy =>
        (intRange (-(radius : Int)) ((radius : Int) + 1)).filterMap (fun dx =>
          if dx * dx + dy * dy ≤ (radius : Int) * (radius : Int) then
            some (center_x + dx, center_y + dy)
          else none))
  | .star =>
      [((1 : Int), (0 : Int)), (0, 1), (2, 1),
       (0, 2), (2, 2),
       (1, 1), (1, 2)].map (fun p => (c.x + p.1, c.y + p.2))
  | .curved =>
      let corners : List (Int × Int) :=
        [(0, 0), ((c.w : Int) - 1, 0), (0, (c.h : Int) - 1), ((c.w : Int) - 1, (c.h : Int) - 1)]
      (List.range c.h).flatMap (fun dy : Nat =>
        (List.range c.w).filterMap (fun dx : Nat =>
          if ((dx : Int), (dy : Int)) ∈ corners then none
          else some (c.x + (dx : Int), c.y + (dy : Int))))

/-! ## FieldIndex (GameWorld.plants dict) -/

/-- FieldIndex models the GameWorld.plants dict, tile -> Plant, as an
association list: lookup reads the first matching key, assignment
replaces in place or appends, deletion removes the key. -/
abbrev FieldIndex := List ((Int × Int) × Cultivar)

/-- Dict lookup self.plants[t] / membership test. -/
def flookup (t : Int × Int) : FieldIndex → Option Cultivar
  | [] => none
  | e :: rest => if e.1 = t then some e.2 else flookup t rest

/-- Dict assignment self.plants[t] = c. -/
def fset (t : Int × Int) (c : Cultivar) : FieldIndex → FieldIndex
  | [] => [(t, c)]
  | e :: rest => if e.1 = t then (t, c) :: rest else e :: fset t c rest

/-- Dict deletion del self.plants[t]. -/
def fdelete (t : Int × Int) (f : FieldIndex) : FieldIndex :=
  f.filter (fun e => decide (e.1 ≠ t))

/-- Tiles iterated by the validation loop of GameWorld.can_plant_at: the
full width x height box, whatever the plant shape. -/
def checked_tiles (x y : Int) (w h : Nat) : List (Int × Int) :=
  (List.range h).flatMap (fun dy : Nat =>
    (List.range w).map (fun dx : Nat => (x + (dx : Int), y + (dy : Int))))

/-- GameWorld.can_plant_at: every tile of the w x h box must be inside
the map bounds, tillable, and not already a key of self.plants. -/
def can_plant_at (m : MapGrid) (f : FieldIndex) (x y : Int) (w h : Nat) : Bool :=
  (checked_tiles x y w h).all (fun t =>
    !(decide (t.1 < 0 ∨ MAP_WIDTH ≤ t.1 ∨ t.2 < 0 ∨ MAP_HEIGHT ≤ t.2)) &&
    is_tillable m t.1 t.2 &&
    (flookup t f).isNone)

/-- Registration loop of GameWorld.handle_planting: the new plant is
assigned to every tile of its footprint. -/
def register_plant (c : Cultivar) (f : FieldIndex) : FieldIndex :=
  (get_occupied_tiles c).foldl (fun acc t => fset t c acc) f

/-! ## Inventory (harvested-item counts) -/

/-- Inventory.items, a name -> count dict. -/
abbrev InvMap := List (String × Nat)

/-- Dict lookup items.get(name). -/
def ilookup (name : String) : InvMap → Option Nat
  | [] => none
  | e :: rest => if e.1 = name then some e.2 else ilookup name rest

/-- Dict assignment items[name] = v. -/
def iset (name : String) (v : Nat) : InvMap → InvMap
  | [] => [(name, v)]
  | e :: rest => if e.1 = name then (name, v) :: rest else e :: iset name v rest

/-- Inventory.add_item: items[name] = items.get(name, 0) + quantity. -/
def add_item (inv : InvMap) (name : String) (quantity : Nat) : InvMap :=
  iset name ((ilookup name inv).getD 0 + quantity) inv

/-- Count held of an item name (0 when absent). -/
def icount (name : String) (inv : InvMap) : Nat :=
  (ilookup name inv).getD 0

/-! ## World state and transactions -/

/-- Mutable world state touched by the planting/harvesting transactions:
the plants dict and the player's harvested-item counts. -/
structure WorldT where
  plants : FieldIndex
  items : InvMap
deriving DecidableEq

/-- Scan offsets of GameWorld.handle_harvesting: dy and dx each over
range(-harvest_range, harvest_range + 1), dy in the outer loop. -/
def scan_offsets (hr : Nat) : List (Int × Int) :=
  (intRange (-(hr : Int)) ((hr : Int) + 1)).flatMap (fun dy =>
    (intRange (-(hr : Int)) ((hr : Int) + 1)).map (fun dx => (dx, dy)))

/-- Body of the harvesting scan for one offset: the circular-range test
math.sqrt(dx*dx + dy*dy) <= harvest_range is modelled by the equivalent
integer comparison on squares; a harvestable plant found at the scanned
tile is deleted from every tile of its footprint and one unit of its item
is credited. -/
def harvest_step (px py : Int) (hr : Nat) (acc : WorldT) (o : Int × Int) : WorldT :=
  if o.1 * o.1 + o.2 * o.2 ≤ (hr : Int) * (hr : Int) then
    match flookup (px + o.1, py + o.2) acc.plants with
    | some plant =>
        if plant.harvestable then
          { plants :=
              (get_occupied_tiles plant).foldl
                (fun g t => if (flookup t g).isSome then fdelete t g else g) acc.plants,
            items := add_item acc.items plant.name 1 }
        else acc
    | none => acc
  else acc

/-- GameWorld.handle_harvesting: fold the scan body over all offsets of
the (2r+1) x (2r+1) window around the player tile. -/
def handle_harvesting (w : WorldT) (player_tile_x player_tile_y : Int)
    (harvest_range : Nat) : WorldT :=
  (scan_offsets harvest_range).foldl (harvest_step player_tile_x player_tile_y harvest_range) w

/-! ## Placement search (GameWorld.find_planting_spot) -/

/-- Chebyshev distance between tiles, the radius at which the expanding
search generates a candidate. -/
def cheby (q p : Int × Int) : Nat :=
  max (q.1 - p.1).natAbs (q.2 - p.2).natAbs

/-- Candidate origins generated at one radius of
GameWorld.find_planting_spot: the player tile at radius 0, otherwise all
cells of the (2r+1) x (2r+1) box with abs(dx) == r or abs(dy) == r. -/
def ring_positions (px py : Int) (r : Nat) : List (Int × Int) :=
  if r = 0 then [(px, py)]
  else
    (intRange (-(r : Int)) ((r : Int) + 1)).flatMap (fun dx =>
      (intRange (-(r : Int)) ((r : Int) + 1)).filterMap (fun dy =>
        if dx.natAbs = r ∨ dy.natAbs = r then some (px + dx, py + dy) else none))

/-- Radius loop of GameWorld.find_planting_spot, one radius per fuel
step: shuffle the candidates of the current radius (random.shuffle is any
permutation, supplied as the perm argument), return the first candidate
accepted by can_plant_at, else move to the next radius. -/
def search_from (m : MapGrid) (f : FieldIndex) (w h : Nat) (px py : Int)
    (perm : Nat → List (Int × Int) → List (Int × Int)) : Nat → Nat → Option (Int × Int)
  | _, 0 => none
  | r, fuel + 1 =>
    match (perm r (ring_positions px py r)).find? (fun q => can_plant_at m f q.1 q.2 w h) with
    | some q => some q
    | none => search_from m f w h px py perm (r + 1) fuel

/-- GameWorld.find_planting_spot: radii 0 .. planting_range in increasing
order; planting_range is the player's current hoe range
(get_planting_range). -/
def find_planting_spot (m : MapGrid) (f : FieldIndex) (w h : Nat) (px py : Int)
    (planting_range : Nat)
    (perm : Nat → List (Int × Int) → List (Int × Int)) : Option (Int × Int) :=
  search_from m f w h px py perm 0 (planting_range + 1)

/-! ## Transaction sequences -/

/-- Transactions run against the field, abstracting the player-triggered
entry points: plant covers every successful GameWorld.handle_planting
(which registers at an origin accepted by can_plant_at, found via
find_planting_spot); harvest is GameWorld.handle_harvesting; tick is the
per-frame growth update, whose only effect on the plants dict is to raise
the harvestable flag of some cultivars (consistently across all aliases
of one object, here modelled by a function of the cultivar value). -/
inductive Op where
  | plant (name : String) (shape : Shape) (w h : Nat) (x y : Int)
  | harvest (px py : Int) (r : Nat)
  | tick (g : Cultivar → Bool)

/-- Effect of one growth update on one plant object, as seen by the
plants dict: the harvestable flag may be raised (never lowered), as a
function of the object's state, hence consistently across all dict
aliases of that object. -/
def tick_update (g : Cultivar → Bool) (c : Cultivar) : Cultivar :=
  { c with harvestable := c.harvestable || g c }

/-- One transaction step against the world. -/
def stepW (m : MapGrid) (w : WorldT) : Op → WorldT
  | .plant name shape pw ph x y =>
      if can_plant_at m w.plants x y pw ph then
        { w with plants :=
            register_plant { name := name, shape := shape, w := pw, h := ph,
                             x := x, y := y, harvestable := false } w.plants }
      else w
  | .harvest px py r => handle_harvesting w px py r
  | .tick g =>
      { w with plants := w.plants.map (fun e => (e.1, tick_update g e.2)) }

/-- Run a transaction sequence from the empty field. -/
def runWorld (m : MapGrid) (ops : List Op) : WorldT :=
  ops.foldl (stepW m) { plants := [], items := [] }

/-- Every plant transaction in the list plants a rectangle-shaped type.
All plant types the shop catalog constructs use the default shape
'rectangle', so every planting the game can perform satisfies this. -/
def plantRectB : Op → Bool
  | .plant _ shape _ _ _ _ => decide (shape = Shape.rectangle)
  | _ => true

/-- FieldIndex invariant of the spec's data model: keys are unique, every
entry sits on a tile of its cultivar's footprint, and every footprint
tile of a live cultivar maps back to that cultivar. -/
def fieldWF (f : FieldIndex) : Prop :=
  (f.map (fun e => e.1)).Nodup ∧
  (∀ e ∈ f, e.1 ∈ get_occupied_tiles e.2) ∧
  (∀ e ∈ f, ∀ t ∈ get_occupied_tiles e.2, flookup t f = some e.2)

instance fieldWF_decidable (f : FieldIndex) : Decidable (fieldWF f) := by
  unfold fieldWF
  infer_instance

/-! ## Association-list lemmas for the plants dict -/

/-- Keys of a field. -/
def fkeys (f : FieldIndex) : List (Int × Int) := f.map (fun e => e.1)

/-- Lookup success yields an entry of the list. -/
theorem flookup_mem {f : FieldIndex} {t : Int × Int} {c : Cultivar}
    (h : flookup t f = some c) : (t, c) ∈ f := by
  induction f with
  | nil => cases h
  | cons e rest ih =>
    unfold flookup at h
    by_cases he : e.1 = t
    · rw [if_pos he] at h
      have hc : e.2 = c := by
        injection h
      have : e = (t, c) := Prod.ext he hc
      rw [← this]
      exact List.mem_cons_self _ _
    · rw [if_neg he] at h
      exact List.mem_cons_of_mem _ (ih h)

/-- Lookup misses when no entry carries the key. -/
theorem flookup_eq_none {f : FieldIndex} {t : Int × Int}
    (h : ∀ e ∈ f, e.1 ≠ t) : flookup t f = none := by
  induction f with
  | nil => rfl
  | cons e rest ih =>
    unfold flookup
    rw [if_neg (h e (List.mem_cons_self _ _))]
    exact ih (fun e' he' => h e' (List.mem_cons_of_mem _ he'))

/-- Entry membership puts the key among the keys. -/
theorem key_mem_fkeys {f : FieldIndex} {e : (Int × Int) × Cultivar} (h : e ∈ f) :
    e.1 ∈ fkeys f := List.mem_map_of_mem _ h

/-- Keys of a cons field. -/
theorem fkeys_cons (e : (Int × Int) × Cultivar) (rest : FieldIndex) :
    fkeys (e :: rest) = e.1 :: fkeys rest := rfl

/-- Filtering by a predicate on the stored cultivar commutes with lookup
on a duplicate-free field. -/
theorem flookup_filter_val {f : FieldIndex} (hnd : (fkeys f).Nodup)
    (q : Cultivar → Bool) (t : Int × Int) :
    flookup t (f.filter (fun e => q e.2)) =
      (flookup t f).bind (fun c => if q c then some c else none) := by
  induction f with
  | nil => rfl
  | cons e rest ih =>
    rw [fkeys_cons] at hnd
    obtain ⟨hknotin, hnd'⟩ := List.nodup_cons.mp hnd
    by_cases he : e.1 = t
    · cases hq : q e.2
      · rw [List.filter_cons_of_neg (by simp [hq])]
        simp only [flookup]
        rw [if_pos he]
        simp only [Option.some_bind, hq, Bool.false_eq_true, if_false]
        apply flookup_eq_none
        intro e' he'
        intro hc
        exact hknotin (he ▸ hc ▸ key_mem_fkeys (List.mem_of_mem_filter he'))
      · rw [List.filter_cons_of_pos (by simp [hq])]
        simp only [flookup]
        rw [if_pos he, if_pos he]
        simp [hq]
    · cases hq : q e.2
      · rw [List.filter_cons_of_neg (by simp [hq])]
        simp only [flookup]
        rw [if_neg he]
        exact ih hnd'
      · rw [List.filter_cons_of_pos (by simp [hq])]
        simp only [flookup]
        rw [if_neg he, if_neg he]
        exact ih hnd'

/-- Keys of a filtered field stay duplicate-free. -/
theorem fkeys_filter_nodup {f : FieldIndex} (hnd : (fkeys f).Nodup)
    (p : (Int × Int) × Cultivar → Bool) : (fkeys (f.filter p)).Nodup :=
  hnd.sublist ((List.filter_sublist f).map _)

/-- Dict assignment: lookup at the assigned key. -/
theorem flookup_fset_self (f : FieldIndex) (t : Int × Int) (c : Cultivar) :
    flookup t (fset t c f) = some c := by
  induction f with
  | nil => simp [fset, flookup]
  | cons e rest ih =>
    unfold fset
    by_cases he : e.1 = t
    · rw [if_pos he]
      simp [flookup]
    · rw [if_neg he]
      unfold flookup
      rw [if_neg he]
      exact ih

/-- Dict assignment: lookup at any other key. -/
theorem flookup_fset_other (f : FieldIndex) {t t' : Int × Int} (c : Cultivar)
    (h : t' ≠ t) : flookup t' (fset t c f) = flookup t' f := by
  induction f with
  | nil =>
    show flookup t' [(t, c)] = flookup t' []
    simp only [flookup]
    rw [if_neg (fun hc => h hc.symm)]
  | cons e rest ih =>
    unfold fset
    by_cases he : e.1 = t
    · rw [if_pos he]
      have he' : e.1 ≠ t' := by
        rw [he]
        exact fun hc => h hc.symm
      simp only [flookup]
      rw [if_neg (fun hc => h hc.symm), if_neg he']
    · rw [if_neg he]
      simp only [flookup]
      by_cases he' : e.1 = t'
      · rw [if_pos he', if_pos he']
      · rw [if_neg he', if_neg he']
        exact ih

/-- Entries after a dict assignment. -/
theorem mem_fset {f : FieldIndex} {t : Int × Int} {c : Cultivar}
    {e : (Int × Int) × Cultivar} (h : e ∈ fset t c f) : e ∈ f ∨ e = (t, c) := by
  induction f with
  | nil => simpa [fset] using h
  | cons e0 rest ih =>
    unfold fset at h
    by_cases he : e0.1 = t
    · rw [if_pos he] at h
      rcases List.mem_cons.mp h with h1 | h1
      · right
        exact h1
      · left
        exact List.mem_cons_of_mem _ h1
    · rw [if_neg he] at h
      rcases List.mem_cons.mp h with h1 | h1
      · left
        rw [h1]
        exact List.mem_cons_self _ _
      · rcases ih h1 with h2 | h2
        · left
          exact List.mem_cons_of_mem _ h2
        · right
          exact h2

/-- Keys after a dict assignment. -/
theorem mem_fkeys_fset {f : FieldIndex} {t : Int × Int} {c : Cultivar} {k : Int × Int}
    (h : k ∈ fkeys (fset t c f)) : k = t ∨ k ∈ fkeys f := by
  rcases List.mem_map.mp h with ⟨e, he, hk⟩
  rcases mem_fset he with h1 | h1
  · right
    rw [← hk]
    exact key_mem_fkeys h1
  · left
    rw [← hk, h1]

/-- Dict assignment keeps keys duplicate-free. -/
theorem fkeys_fset_nodup {f : FieldIndex} (hnd : (fkeys f).Nodup)
    (t : Int × Int) (c : Cultivar) : (fkeys (fset t c f)).Nodup := by
  induction f with
  | nil => simp [fset, fkeys]
  | cons e rest ih =>
    have hnd' : (fkeys rest).Nodup := (List.nodup_cons.mp hnd).2
    have hknotin : e.1 ∉ fkeys rest := (List.nodup_cons.mp hnd).1
    unfold fset
    by_cases he : e.1 = t
    · rw [if_pos he]
      have : fkeys ((t, c) :: rest) = t :: fkeys rest := rfl
      rw [this]
      exact List.nodup_cons.mpr ⟨he ▸ hknotin, hnd'⟩
    · rw [if_neg he]
      have : fkeys (e :: fset t c rest) = e.1 :: fkeys (fset t c rest) := rfl
      rw [this]
      refine List.nodup_cons.mpr ⟨?_, ih hnd'⟩
      intro hc
      rcases mem_fkeys_fset hc with h1 | h1
      · exact he h1
      · exact hknotin h1

/-- Lookup after the registration fold: every tile of the iterated list
now maps to the new plant, all other tiles are untouched. -/
theorem flookup_foldl_fset (ts : List (Int × Int)) (c : Cultivar) :
    ∀ (f : FieldIndex) (t : Int × Int),
      flookup t (ts.foldl (fun acc u => fset u c acc) f) =
        if t ∈ ts then some c else flookup t f := by
  induction ts with
  | nil =>
    intro f t
    simp
  | cons u ts ih =>
    intro f t
    rw [List.foldl_cons, ih]
    by_cases hts : t ∈ ts
    · rw [if_pos hts, if_pos (List.mem_cons_of_mem _ hts)]
    · rw [if_neg hts]
      by_cases hu : t = u
      · rw [hu, if_pos (List.mem_cons_self _ _)]
        exact flookup_fset_self f u c
      · rw [if_neg (by simp [hu, hts]), flookup_fset_other f c hu]

/-- Entries after the registration fold. -/
theorem mem_foldl_fset (ts : List (Int × Int)) (c : Cultivar) :
    ∀ (f : FieldIndex) (e : (Int × Int) × Cultivar),
      e ∈ ts.foldl (fun acc u => fset u c acc) f →
      e ∈ f ∨ (e.1 ∈ ts ∧ e.2 = c) := by
  induction ts with
  | nil =>
    intro f e h
    exact Or.inl h
  | cons u ts ih =>
    intro f e h
    rw [List.foldl_cons] at h
    rcases ih _ _ h with h1 | h1
    · rcases mem_fset h1 with h2 | h2
      · exact Or.inl h2
      · right
        rw [h2]
        exact ⟨List.mem_cons_self _ _, rfl⟩
    · right
      exact ⟨List.mem_cons_of_mem _ h1.1, h1.2⟩

/-- Keys stay duplicate-free through the registration fold. -/
theorem fkeys_foldl_fset_nodup (ts : List (Int × Int)) (c : Cultivar) :
    ∀ (f : FieldIndex), (fkeys f).Nodup →
      (fkeys (ts.foldl (fun acc u => fset u c acc) f)).Nodup := by
  induction ts with
  | nil =>
    intro f h
    exact h
  | cons u ts ih =>
    intro f h
    rw [List.foldl_cons]
    exact ih _ (fkeys_fset_nodup h u c)

/-- Lookup commutes with a value-only rewrite of the field. -/
theorem flookup_map_value (g : Cultivar → Cultivar) (f : FieldIndex) (t : Int × Int) :
    flookup t (f.map (fun e => (e.1, g e.2))) = (flookup t f).map g := by
  induction f with
  | nil => rfl
  | cons e rest ih =>
    simp only [List.map_cons, flookup]
    by_cases he : e.1 = t
    · rw [if_pos he, if_pos he]
      rfl
    · rw [if_neg he, if_neg he]
      exact ih

/-- Keys are untouched by a value-only rewrite of the field. -/
theorem fkeys_map_value (g : Cultivar → Cultivar) (f : FieldIndex) :
    fkeys (f.map (fun e => (e.1, g e.2))) = fkeys f := by
  unfold fkeys
  rw [List.map_map]
  rfl

/-- The footprint ignores the harvestable flag. -/
theorem occ_set_harvestable (c : Cultivar) (b : Bool) :
    get_occupied_tiles { c with harvestable := b } = get_occupied_tiles c := by
  cases c
  rfl

/-- The footprint is unchanged by a growth tick. -/
theorem occ_tick_update (g : Cultivar → Bool) (c : Cultivar) :
    get_occupied_tiles (tick_update g c) = get_occupied_tiles c := by
  cases c
  rfl

/-- An empty lookup means no entry carries the key. -/
theorem flookup_none_forall {f : FieldIndex} {t : Int × Int}
    (h : flookup t f = none) : ∀ e ∈ f, e.1 ≠ t := by
  induction f with
  | nil =>
    intro e he
    cases he
  | cons e0 rest ih =>
    unfold flookup at h
    by_cases he : e0.1 = t
    · rw [if_pos he] at h
      cases h
    · rw [if_neg he] at h
      intro e' he'
      rcases List.mem_cons.mp he' with h1 | h1
      · rw [h1]
        exact he
      · exact ih h e' h1

/-- Deleting an absent key is a no-op. -/
theorem fdelete_of_none {f : FieldIndex} {t : Int × Int}
    (h : flookup t f = none) : fdelete t f = f := by
  unfold fdelete
  apply List.filter_eq_self.mpr
  intro e he
  simpa using flookup_none_forall h e he

/-- The guarded deletion loop of handle_harvesting removes exactly the
entries whose key lies in the iterated tile list. -/
theorem delete_fold_eq_filter (ts : List (Int × Int)) :
    ∀ (f : FieldIndex),
      ts.foldl (fun g t => if (flookup t g).isSome then fdelete t g else g) f =
        f.filter (fun e => decide (e.1 ∉ ts)) := by
  induction ts with
  | nil =>
    intro f
    simp
  | cons u ts ih =>
    intro f
    rw [List.foldl_cons]
    have hstep : (if (flookup u f).isSome then fdelete u f else f) = fdelete u f := by
      cases hu : flookup u f
      · rw [fdelete_of_none hu]
        simp
      · simp
    rw [hstep, ih]
    unfold fdelete
    rw [List.filter_filter]
    apply List.filter_congr
    intro e _
    simp [List.mem_cons, not_or, Bool.and_comm]

/-! ## Inventory lemmas -/

/-- Dict assignment: read back the written name. -/
theorem ilookup_iset_self (inv : InvMap) (n : String) (v : Nat) :
    ilookup n (iset n v inv) = some v := by
  induction inv with
  | nil => simp [iset, ilookup]
  | cons e rest ih =>
    unfold iset
    by_cases he : e.1 = n
    · rw [if_pos he]
      simp [ilookup]
    · rw [if_neg he]
      unfold ilookup
      rw [if_neg he]
      exact ih

/-- Dict assignment: other names unchanged. -/
theorem ilookup_iset_other (inv : InvMap) {n n' : String} (v : Nat)
    (h : n' ≠ n) : ilookup n' (iset n v inv) = ilookup n' inv := by
  induction inv with
  | nil =>
    show ilookup n' [(n, v)] = ilookup n' []
    simp only [ilookup]
    rw [if_neg (fun hc => h hc.symm)]
  | cons e rest ih =>
    unfold iset
    by_cases he : e.1 = n
    · rw [if_pos he]
      have he' : e.1 ≠ n' := by
        rw [he]
        exact fun hc => h hc.symm
      simp only [ilookup]
      rw [if_neg (fun hc => h hc.symm), if_neg he']
    · rw [if_neg he]
      simp only [ilookup]
      by_cases he' : e.1 = n'
      · rw [if_pos he', if_pos he']
      · rw [if_neg he', if_neg he']
        exact ih

/-- Crediting an item raises exactly that item's count by the quantity. -/
theorem icount_add_item (inv : InvMap) (n m : String) (q : Nat) :
    icount n (add_item inv m q) = icount n inv + (if n = m then q else 0) := by
  unfold add_item icount
  by_cases h : n = m
  · rw [if_pos h, h, ilookup_iset_self]
    rfl
  · rw [if_neg h, ilookup_iset_other inv _ h]
    omega

/-! ## Claim C2 -/

/-- Star-shaped 3x3 cultivar used as the mismatch example. -/
def starDemo : Cultivar :=
  { name := ("Star Plant"), shape := .star, w := 3, h := 3, x := 0, y := 0,
    harvestable := false }

/-- For a rectangle-shaped plant the footprint is exactly the validated
w x h box. -/
theorem occ_rectangle_eq_checked (c : Cultivar) (hs : c.shape = Shape.rectangle) :
    get_occupied_tiles c = checked_tiles c.x c.y c.w c.h := by
  unfold get_occupied_tiles checked_tiles
  rw [hs]

/-- C2 counterexample: for the star shape with its 3x3 box, can_plant_at
iterates the full box, which contains the origin tile (0,0), but
get_occupied_tiles (used by planting registration and harvest removal)
does not include (0,0): the validated set is not the footprint. -/
theorem c2_counterexample_star_validation_mismatch :
    ((0, 0) : Int × Int) ∈ checked_tiles 0 0 3 3 ∧
    ((0, 0) : Int × Int) ∉ get_occupied_tiles starDemo ∧
    checked_tiles 0 0 3 3 ≠ get_occupied_tiles starDemo := by
  decide

/-- C2 amended: planting registration and harvest removal share the one
footprint function get_occupied_tiles, but placement validation iterates
the full w x h bounding box; the two coincide exactly for
rectangle-shaped plants, which is every plant type the shop catalog
constructs (the catalog never passes a shape argument, so all entries use
the default 'rectangle'). -/
theorem c2_amended_rectangle_validation_eq_footprint (c : Cultivar)
    (hs : c.shape = Shape.rectangle) :
    get_occupied_tiles c = checked_tiles c.x c.y c.w c.h ∧
    (∀ (m : MapGrid) (f : FieldIndex),
       can_plant_at m f c.x c.y c.w c.h =
         (get_occupied_tiles c).all (fun t =>
           !(decide (t.1 < 0 ∨ MAP_WIDTH ≤ t.1 ∨ t.2 < 0 ∨ MAP_HEIGHT ≤ t.2)) &&
           is_tillable m t.1 t.2 &&
           (flookup t f).isNone)) := by
  have h1 := occ_rectangle_eq_checked c hs
  refine ⟨h1, fun m f => ?_⟩
  rw [can_plant_at, h1]

/-- Rectangle 1x1 cultivar used in witnesses. -/
def rectDemo : Cultivar :=
  { name := ("Radish"), shape := .rectangle, w := 1, h := 1, x := 20, y := 20,
    harvestable := false }

/-- Witness for c2_amended_rectangle_validation_eq_footprint on the
concrete 1x1 rectangle cultivar. -/
theorem c2_amended_rectangle_validation_eq_footprint_witness :
    get_occupied_tiles rectDemo = checked_tiles rectDemo.x rectDemo.y rectDemo.w rectDemo.h ∧
    (∀ (m : MapGrid) (f : FieldIndex),
       can_plant_at m f rectDemo.x rectDemo.y rectDemo.w rectDemo.h =
         (get_occupied_tiles rectDemo).all (fun t =>
           !(decide (t.1 < 0 ∨ MAP_WIDTH ≤ t.1 ∨ t.2 < 0 ∨ MAP_HEIGHT ≤ t.2)) &&
           is_tillable m t.1 t.2 &&
           (flookup t f).isNone)) :=
  c2_amended_rectangle_validation_eq_footprint rectDemo (by rfl)

/-! ## Claim C6 -/

/-- Membership in the integer range list. -/
theorem mem_intRange {lo hi a : Int} : a ∈ intRange lo hi ↔ lo ≤ a ∧ a < hi := by
  unfold intRange
  rw [List.mem_map]
  constructor
  · rintro ⟨i, hi2, rfl⟩
    rw [List.mem_range] at hi2
    omega
  · intro h
    refine ⟨(a - lo).toNat, ?_, ?_⟩
    · rw [List.mem_range]
      omega
    · omega

/-- The candidate list at one radius is exactly the set of origins at
that Chebyshev distance from the player tile. -/
theorem mem_ring_positions (px py : Int) (r : Nat) (q : Int × Int) :
    q ∈ ring_positions px py r ↔ cheby q (px, py) = r := by
  unfold ring_positions cheby
  by_cases hr : r = 0
  · subst hr
    rw [if_pos rfl]
    simp only [List.mem_singleton]
    constructor
    · rintro rfl
      simp
    · intro h
      have h1 : q.1 = px := by omega
      have h2 : q.2 = py := by omega
      exact Prod.ext h1 h2
  · rw [if_neg hr]
    simp only [List.mem_flatMap, List.mem_filterMap, mem_intRange]
    constructor
    · rintro ⟨dx, ⟨hdx1, hdx2⟩, dy, ⟨⟨hdy1, hdy2⟩, hsome⟩⟩
      by_cases hcond : dx.natAbs = r ∨ dy.natAbs = r
      · rw [if_pos hcond] at hsome
        have hq : q = (px + dx, py + dy) := by
          cases hsome
          rfl
        rw [hq]
        simp only
        omega
      · rw [if_neg hcond] at hsome
        cases hsome
    · intro h
      refine ⟨q.1 - px, by omega, q.2 - py, ⟨by omega, ?_⟩⟩
      rw [if_pos (by omega)]
      congr 1
      refine Prod.ext ?_ ?_ <;> simp

/-- Successful search results: accepted by can_plant_at, at a Chebyshev
radius inside the searched window, and at the smallest radius that holds
any accepted origin at or past the starting radius. -/
theorem search_from_some (m : MapGrid) (f : FieldIndex) (w h : Nat) (px py : Int)
    (perm : Nat → List (Int × Int) → List (Int × Int))
    (hperm : ∀ r l, (perm r l).Perm l) :
    ∀ (fuel r : Nat) (q : Int × Int),
      search_from m f w h px py perm r fuel = some q →
      can_plant_at m f q.1 q.2 w h = true ∧
      r ≤ cheby q (px, py) ∧ cheby q (px, py) < r + fuel ∧
      (∀ q2, can_plant_at m f q2.1 q2.2 w h = true → r ≤ cheby q2 (px, py) →
         cheby q (px, py) ≤ cheby q2 (px, py)) := by
  intro fuel
  induction fuel with
  | zero =>
    intro r q hq
    cases hq
  | succ fuel ih =>
    intro r q hq
    unfold search_from at hq
    cases hfind : (perm r (ring_positions px py r)).find?
        (fun q2 => can_plant_at m f q2.1 q2.2 w h) with
    | some q0 =>
      rw [hfind] at hq
      cases hq
      have hvalid := List.find?_some hfind
      have hmem : q ∈ ring_positions px py r :=
        (hperm r _).mem_iff.mp (List.mem_of_find?_eq_some hfind)
      have hch : cheby q (px, py) = r := (mem_ring_positions px py r q).mp hmem
      refine ⟨hvalid, by omega, by omega, ?_⟩
      intro q2 _ hge
      omega
    | none =>
      rw [hfind] at hq
      have hnone := List.find?_eq_none.mp hfind
      obtain ⟨hv, hlo, hhi, hmin⟩ := ih (r + 1) q hq
      have hnotr : cheby q (px, py) ≠ r := by omega
      refine ⟨hv, by omega, by omega, ?_⟩
      intro q2 hq2 hge
      by_cases hr2 : cheby q2 (px, py) = r
      · exfalso
        have hmem2 : q2 ∈ ring_positions px py r := (mem_ring_positions px py r q2).mpr hr2
        have : q2 ∈ perm r (ring_positions px py r) := (hperm r _).mem_iff.mpr hmem2
        exact (hnone q2 this) hq2
      · exact hmin q2 hq2 (by omega)

/-- Failed search: no origin in the searched radius window is accepted. -/
theorem search_from_none (m : MapGrid) (f : FieldIndex) (w h : Nat) (px py : Int)
    (perm : Nat → List (Int × Int) → List (Int × Int))
    (hperm : ∀ r l, (perm r l).Perm l) :
    ∀ (fuel r : Nat),
      search_from m f w h px py perm r fuel = none →
      ∀ q, r ≤ cheby q (px, py) → cheby q (px, py) < r + fuel →
        can_plant_at m f q.1 q.2 w h = false := by
  intro fuel
  induction fuel with
  | zero =>
    intro r _ q h1 h2
    omega
  | succ fuel ih =>
    intro r hnone q h1 h2
    unfold search_from at hnone
    cases hfind : (perm r (ring_positions px py r)).find?
        (fun q2 => can_plant_at m f q2.1 q2.2 w h) with
    | some q0 =>
      rw [hfind] at hnone
      cases hnone
    | none =>
      rw [hfind] at hnone
      by_cases hr2 : cheby q (px, py) = r
      · have hmem2 : q ∈ ring_positions px py r := (mem_ring_positions px py r q).mpr hr2
        have hmemp : q ∈ perm r (ring_positions px py r) := (hperm r _).mem_iff.mpr hmem2
        have := List.find?_eq_none.mp hfind q hmemp
        cases hcp : can_plant_at m f q.1 q.2 w h
        · rfl
        · exact absurd hcp this
      · exact ih (r + 1) hnone q (by omega) (by omega)

/-- C6: when find_planting_spot returns an origin, that origin passes
can_plant_at, lies within the hoe's planting range (Chebyshev), and is at
minimal Chebyshev distance among all origins passing can_plant_at; it
returns no spot iff no origin within the range passes can_plant_at; and
with planting range 0 the result is the player's own tile or no spot.
random.shuffle is modelled as an arbitrary permutation family perm. -/
theorem c6_find_planting_spot_characterisation (m : MapGrid) (f : FieldIndex)
    (w h : Nat) (px py : Int) (planting_range : Nat)
    (perm : Nat → List (Int × Int) → List (Int × Int))
    (hperm : ∀ r l, (perm r l).Perm l) :
    (∀ q, find_planting_spot m f w h px py planting_range perm = some q →
       can_plant_at m f q.1 q.2 w h = true ∧
       cheby q (px, py) ≤ planting_range ∧
       (∀ q2, can_plant_at m f q2.1 q2.2 w h = true →
          cheby q (px, py) ≤ cheby q2 (px, py))) ∧
    (find_planting_spot m f w h px py planting_range perm = none ↔
       ∀ q, cheby q (px, py) ≤ planting_range →
         can_plant_at m f q.1 q.2 w h = false) ∧
    (planting_range = 0 →
       find_planting_spot m f w h px py planting_range perm = some (px, py) ∨
       find_planting_spot m f w h px py planting_range perm = none) := by
  refine ⟨?_, ⟨?_, ?_⟩, ?_⟩
  · intro q hq
    obtain ⟨hv, _, hhi, hmin⟩ :=
      search_from_some m f w h px py perm hperm (planting_range + 1) 0 q hq
    exact ⟨hv, by omega, fun q2 h2 => hmin q2 h2 (by omega)⟩
  · intro hnone q hle
    exact search_from_none m f w h px py perm hperm (planting_range + 1) 0 hnone q
      (by omega) (by omega)
  · intro hall
    cases hres : find_planting_spot m f w h px py planting_range perm with
    | none => rfl
    | some q =>
      exfalso
      obtain ⟨hv, _, hhi, _⟩ :=
        search_from_some m f w h px py perm hperm (planting_range + 1) 0 q hres
      have := hall q (by omega)
      rw [hv] at this
      cases this
  · intro h0
    cases hres : find_planting_spot m f w h px py planting_range perm with
    | none =>
      right
      rfl
    | some q =>
      left
      obtain ⟨_, _, hhi, _⟩ :=
        search_from_some m f w h px py perm hperm (planting_range + 1) 0 q hres
      have hch : cheby q (px, py) = 0 := by omega
      have h1 : q.1 = px := by
        unfold cheby at hch
        omega
      have h2 : q.2 = py := by
        unfold cheby at hch
        omega
      have hq : q = (px, py) := Prod.ext h1 h2
      rw [hq]

/-- Witness for c6_find_planting_spot_characterisation: empty field,
all-grass demonstration grid, 1x1 footprint, player at (20, 20), range 2,
and the identity permutation. -/
theorem c6_find_planting_spot_characterisation_witness :
    (∀ q, find_planting_spot demoGrid [] 1 1 20 20 2 (fun _ l => l) = some q →
       can_plant_at demoGrid [] q.1 q.2 1 1 = true ∧
       cheby q (20, 20) ≤ 2 ∧
       (∀ q2, can_plant_at demoGrid [] q2.1 q2.2 1 1 = true →
          cheby q (20, 20) ≤ cheby q2 (20, 20))) ∧
    (find_planting_spot demoGrid [] 1 1 20 20 2 (fun _ l => l) = none ↔
       ∀ q, cheby q (20, 20) ≤ 2 →
         can_plant_at demoGrid [] q.1 q.2 1 1 = false) ∧
    ((2 : Nat) = 0 →
       find_planting_spot demoGrid [] 1 1 20 20 2 (fun _ l => l) = some (20, 20) ∨
       find_planting_spot demoGrid [] 1 1 20 20 2 (fun _ l => l) = none) :=
  c6_find_planting_spot_characterisation demoGrid [] 1 1 20 20 2 (fun _ l => l)
    (fun _ l => List.Perm.refl l)

/-! ## Harvest-scan characterisation -/

/-- Circular-range test of the harvesting scan on one offset. -/
def in_scan_range (hr : Nat) (o : Int × Int) : Bool :=
  decide (o.1 * o.1 + o.2 * o.2 ≤ (hr : Int) * (hr : Int))

/-- A cultivar is hit by a prefix of the scan when some already-processed
offset is in circular range and lands on a tile of its footprint while it
is harvestable. -/
def hitBy (px py : Int) (hr : Nat) (P : List (Int × Int)) (c : Cultivar) : Bool :=
  c.harvestable && P.any (fun o =>
    in_scan_range hr o && decide ((px + o.1, py + o.2) ∈ get_occupied_tiles c))

/-- Being hit by a concatenation of prefixes. -/
theorem hitBy_append (px py : Int) (hr : Nat) (P Q : List (Int × Int)) (c : Cultivar) :
    hitBy px py hr (P ++ Q) c = (hitBy px py hr P c || hitBy px py hr Q c) := by
  unfold hitBy
  rw [List.any_append]
  cases c.harvestable <;> simp

/-- Being hit by a single offset. -/
theorem hitBy_single (px py : Int) (hr : Nat) (o : Int × Int) (c : Cultivar) :
    hitBy px py hr [o] c =
      (c.harvestable && (in_scan_range hr o &&
        decide ((px + o.1, py + o.2) ∈ get_occupied_tiles c))) := by
  unfold hitBy
  simp

/-- A live cultivar of a field. -/
def liveIn (f : FieldIndex) (c : Cultivar) : Prop :=
  c ∈ f.map (fun e => e.2)

/-- Each entry's cultivar is live. -/
theorem liveIn_of_mem {f : FieldIndex} {e : (Int × Int) × Cultivar} (h : e ∈ f) :
    liveIn f e.2 := List.mem_map_of_mem _ h

/-- A live cultivar sits on some entry. -/
theorem liveIn_elim {f : FieldIndex} {c : Cultivar} (h : liveIn f c) :
    ∃ t, (t, c) ∈ f := by
  rcases List.mem_map.mp h with ⟨e, he, heq⟩
  exact ⟨e.1, by rw [← heq]; exact he⟩

/-- Footprints of distinct live cultivars are disjoint on a well-formed
field. -/
theorem fieldWF_disjoint {f : FieldIndex} (hWF : fieldWF f) {c c1 : Cultivar}
    {t : Int × Int} (hc : liveIn f c) (hc1 : liveIn f c1)
    (h1 : t ∈ get_occupied_tiles c) (h2 : t ∈ get_occupied_tiles c1) : c = c1 := by
  obtain ⟨t0, h0⟩ := liveIn_elim hc
  obtain ⟨t1, h3⟩ := liveIn_elim hc1
  have e1 := hWF.2.2 (t0, c) h0 t h1
  have e2 := hWF.2.2 (t1, c1) h3 t h2
  injection e1.symm.trans e2

/-- Pointwise-equal predicates count equally. -/
theorem countP_congr_list {l : List α} {p q : α → Bool}
    (h : ∀ a ∈ l, p a = q a) : l.countP p = l.countP q := by
  induction l with
  | nil => rfl
  | cons a l ih =>
    rw [List.countP_cons, List.countP_cons, h a (List.mem_cons_self _ _),
      ih (fun a2 ha2 => h a2 (List.mem_cons_of_mem _ ha2))]

/-- Extending a count predicate by one distinguished element of a
duplicate-free list adds exactly its own contribution. -/
theorem countP_extend {l : List Cultivar} (hl : l.Nodup) {plant : Cultivar}
    (hmem : plant ∈ l) (p r : Cultivar → Bool) (hp : p plant = false) :
    l.countP (fun x => (p x || x == plant) && r x) =
      l.countP (fun x => p x && r x) + (if r plant then 1 else 0) := by
  induction l with
  | nil => cases hmem
  | cons a l ih =>
    obtain ⟨hnotin, hl'⟩ := List.nodup_cons.mp hl
    rcases List.mem_cons.mp hmem with ha | ha
    · subst ha
      have hcongr : ∀ x ∈ l, ((p x || x == plant) && r x) = (p x && r x) := by
        intro x hx
        have hne : x ≠ plant := fun hc => hnotin (hc ▸ hx)
        have : (x == plant) = false := by
          simp [hne]
        rw [this]
        simp
      rw [List.countP_cons, List.countP_cons, countP_congr_list hcongr]
      have h1 : ((p plant || plant == plant) && r plant) = r plant := by
        simp
      have h2 : (p plant && r plant) = false := by
        rw [hp]
        simp
      rw [h1, h2]
      simp
    · have hne : a ≠ plant := fun hc => hnotin (hc ▸ ha)
      have h1 : ((p a || a == plant) && r a) = (p a && r a) := by
        have : (a == plant) = false := by
          simp [hne]
        rw [this]
        simp
      rw [List.countP_cons, List.countP_cons, h1, ih hl' ha]
      omega

/-- Complete lookup for any live cultivar. -/
theorem fieldWF_complete_live {f0 : FieldIndex} (hWF : fieldWF f0) {c : Cultivar}
    {t : Int × Int} (hl : liveIn f0 c) (ht : t ∈ get_occupied_tiles c) :
    flookup t f0 = some c := by
  obtain ⟨t0, h0⟩ := liveIn_elim hl
  exact hWF.2.2 (t0, c) h0 t ht

/-- Scan step outside the circular range: no effect. -/
theorem harvest_step_skip_range (px py : Int) (hr : Nat) (acc : WorldT) (o : Int × Int)
    (h : ¬ (o.1 * o.1 + o.2 * o.2 ≤ (hr : Int) * (hr : Int))) :
    harvest_step px py hr acc o = acc := by
  unfold harvest_step
  rw [if_neg h]

/-- Scan step on an empty tile: no effect. -/
theorem harvest_step_skip_none (px py : Int) (hr : Nat) (acc : WorldT) (o : Int × Int)
    (hrange : o.1 * o.1 + o.2 * o.2 ≤ (hr : Int) * (hr : Int))
    (h : flookup (px + o.1, py + o.2) acc.plants = none) :
    harvest_step px py hr acc o = acc := by
  unfold harvest_step
  rw [if_pos hrange, h]

/-- Scan step on a not-yet-harvestable plant: no effect. -/
theorem harvest_step_skip_unripe (px py : Int) (hr : Nat) (acc : WorldT) (o : Int × Int)
    {plant : Cultivar}
    (hrange : o.1 * o.1 + o.2 * o.2 ≤ (hr : Int) * (hr : Int))
    (h : flookup (px + o.1, py + o.2) acc.plants = some plant)
    (hh : plant.harvestable = false) :
    harvest_step px py hr acc o = acc := by
  unfold harvest_step
  rw [if_pos hrange, h]
  simp [hh]

/-- Scan step on a harvestable plant: delete its whole footprint from the
dict and credit one unit of its item. -/
theorem harvest_step_harvests (px py : Int) (hr : Nat) (acc : WorldT) (o : Int × Int)
    {plant : Cultivar}
    (hrange : o.1 * o.1 + o.2 * o.2 ≤ (hr : Int) * (hr : Int))
    (h : flookup (px + o.1, py + o.2) acc.plants = some plant)
    (hh : plant.harvestable = true) :
    harvest_step px py hr acc o =
      { plants := (get_occupied_tiles plant).foldl
          (fun g t2 => if (flookup t2 g).isSome then fdelete t2 g else g) acc.plants,
        items := add_item acc.items plant.name 1 } := by
  unfold harvest_step
  rw [if_pos hrange, h]
  simp [hh]

/-- A pointwise-agreeing extension of the hit prefix leaves both the
filtered field and the per-name hit counts unchanged. -/
theorem filter_counts_of_hsame {f0 : FieldIndex} (px py : Int) (hr : Nat)
    (P P2 : List (Int × Int))
    (hsame : ∀ c, liveIn f0 c → hitBy px py hr P2 c = hitBy px py hr P c) :
    f0.filter (fun e => !hitBy px py hr P2 e.2) =
      f0.filter (fun e => !hitBy px py hr P e.2) ∧
    ∀ n, ((f0.map (fun e => e.2)).dedup.countP
            (fun c => hitBy px py hr P2 c && (c.name == n)))
        = ((f0.map (fun e => e.2)).dedup.countP
            (fun c => hitBy px py hr P c && (c.name == n))) := by
  constructor
  · apply List.filter_congr
    intro e he
    rw [hsame e.2 (liveIn_of_mem he)]
  · intro n
    apply countP_congr_list
    intro c hc
    rw [hsame c (List.mem_dedup.mp hc)]

/-- One scan step from a mid-scan state (original field minus the
cultivars hit by the processed prefix, counts credited accordingly):
processing one more offset yields the state of the extended prefix. -/
theorem harvest_step_char (px py : Int) (hr : Nat) {f0 : FieldIndex}
    (hWF : fieldWF f0) (items0 inv : InvMap) (P : List (Int × Int)) (o : Int × Int)
    (hinv : ∀ n, icount n inv = icount n items0 +
       ((f0.map (fun e => e.2)).dedup.countP
          (fun c => hitBy px py hr P c && (c.name == n)))) :
    (harvest_step px py hr
        { plants := f0.filter (fun e => !hitBy px py hr P e.2), items := inv } o).plants
      = f0.filter (fun e => !hitBy px py hr (P ++ [o]) e.2) ∧
    ∀ n, icount n (harvest_step px py hr
        { plants := f0.filter (fun e => !hitBy px py hr P e.2), items := inv } o).items
      = icount n items0 +
        ((f0.map (fun e => e.2)).dedup.countP
          (fun c => hitBy px py hr (P ++ [o]) c && (c.name == n))) := by
  by_cases hprop : o.1 * o.1 + o.2 * o.2 ≤ (hr : Int) * (hr : Int)
  case neg =>
    rw [harvest_step_skip_range px py hr _ o hprop]
    have hsame : ∀ c, liveIn f0 c →
        hitBy px py hr (P ++ [o]) c = hitBy px py hr P c := by
      intro c _
      rw [hitBy_append, hitBy_single]
      have hin : in_scan_range hr o = false := by
        unfold in_scan_range
        exact decide_eq_false hprop
      rw [hin]
      simp
    obtain ⟨hfil, hcnt⟩ := filter_counts_of_hsame px py hr P (P ++ [o]) hsame
    exact ⟨hfil.symm, fun n => by rw [hcnt n]; exact hinv n⟩
  case pos =>
    have hin : in_scan_range hr o = true := by
      unfold in_scan_range
      exact decide_eq_true hprop
    have hfl := flookup_filter_val hWF.1 (fun c => !hitBy px py hr P c)
      (px + o.1, py + o.2)
    cases hf0 : flookup (px + o.1, py + o.2) f0 with
    | none =>
      rw [hf0] at hfl
      simp only [Option.none_bind] at hfl
      rw [harvest_step_skip_none px py hr _ o hprop hfl]
      have hsame : ∀ c, liveIn f0 c →
          hitBy px py hr (P ++ [o]) c = hitBy px py hr P c := by
        intro c hl
        rw [hitBy_append, hitBy_single]
        have hm : (px + o.1, py + o.2) ∉ get_occupied_tiles c := by
          intro hmem
          rw [fieldWF_complete_live hWF hl hmem] at hf0
          cases hf0
        simp [hm]
      obtain ⟨hfil, hcnt⟩ := filter_counts_of_hsame px py hr P (P ++ [o]) hsame
      exact ⟨hfil.symm, fun n => by rw [hcnt n]; exact hinv n⟩
    | some plant =>
      rw [hf0] at hfl
      simp only [Option.some_bind] at hfl
      have hplive : liveIn f0 plant := liveIn_of_mem (flookup_mem hf0)
      cases hPq : hitBy px py hr P plant with
      | true =>
        rw [hPq] at hfl
        simp only [Bool.not_true, Bool.false_eq_true, if_false] at hfl
        rw [harvest_step_skip_none px py hr _ o hprop hfl]
        have hsame : ∀ c, liveIn f0 c →
            hitBy px py hr (P ++ [o]) c = hitBy px py hr P c := by
          intro c hl
          rw [hitBy_append, hitBy_single]
          by_cases hm : (px + o.1, py + o.2) ∈ get_occupied_tiles c
          · have hc : c = plant := by
              have := (fieldWF_complete_live hWF hl hm).symm.trans hf0
              injection this
            subst hc
            rw [hPq]
            simp
          · simp [hm]
        obtain ⟨hfil, hcnt⟩ := filter_counts_of_hsame px py hr P (P ++ [o]) hsame
        exact ⟨hfil.symm, fun n => by rw [hcnt n]; exact hinv n⟩
      | false =>
        rw [hPq] at hfl
        simp only [Bool.not_false, if_true] at hfl
        cases hharv : plant.harvestable with
        | false =>
          rw [harvest_step_skip_unripe px py hr _ o hprop hfl hharv]
          have hsame : ∀ c, liveIn f0 c →
              hitBy px py hr (P ++ [o]) c = hitBy px py hr P c := by
            intro c hl
            rw [hitBy_append, hitBy_single]
            by_cases hm : (px + o.1, py + o.2) ∈ get_occupied_tiles c
            · have hc : c = plant := by
                have := (fieldWF_complete_live hWF hl hm).symm.trans hf0
                injection this
              subst hc
              rw [hharv]
              simp
            · simp [hm]
          obtain ⟨hfil, hcnt⟩ := filter_counts_of_hsame px py hr P (P ++ [o]) hsame
          exact ⟨hfil.symm, fun n => by rw [hcnt n]; exact hinv n⟩
        | true =>
          rw [harvest_step_harvests px py hr _ o hprop hfl hharv]
          have htocc : (px + o.1, py + o.2) ∈ get_occupied_tiles plant :=
            hWF.2.1 _ (flookup_mem hf0)
          have P1 : ∀ c, liveIn f0 c →
              hitBy px py hr (P ++ [o]) c =
                (hitBy px py hr P c || (c == plant)) := by
            intro c hl
            rw [hitBy_append, hitBy_single]
            by_cases hm : (px + o.1, py + o.2) ∈ get_occupied_tiles c
            · have hc : c = plant := by
                have := (fieldWF_complete_live hWF hl hm).symm.trans hf0
                injection this
              subst hc
              rw [hharv, hin, hPq]
              simp [hm]
            · have hcne : (c == plant) = false := by
                have hne : c ≠ plant := by
                  intro hc
                  exact hm (hc ▸ htocc)
                simp [hne]
              rw [hcne]
              simp [hm]
          constructor
          · show (get_occupied_tiles plant).foldl
                (fun g t2 => if (flookup t2 g).isSome then fdelete t2 g else g)
                (f0.filter (fun e => !hitBy px py hr P e.2)) = _
            rw [delete_fold_eq_filter, List.filter_filter]
            apply List.filter_congr
            intro e he
            rw [P1 e.2 (liveIn_of_mem he)]
            by_cases hceq : e.2 = plant
            · have h1 : e.1 ∈ get_occupied_tiles plant := hceq ▸ hWF.2.1 e he
              have h2 : (e.2 == plant) = true := by
                simp [hceq]
              have h3 : hitBy px py hr P e.2 = false := hceq ▸ hPq
              simp [h1, h2, h3]
            · have h1 : e.1 ∉ get_occupied_tiles plant := by
                intro hmem
                exact hceq (fieldWF_disjoint hWF (liveIn_of_mem he) hplive
                  (hWF.2.1 e he) hmem)
              have h2 : (e.2 == plant) = false := by
                simp [hceq]
              simp [h1, h2]
          · intro n
            show icount n (add_item inv plant.name 1) = _
            rw [icount_add_item, hinv n]
            have hplantmem : plant ∈ (f0.map (fun e => e.2)).dedup :=
              List.mem_dedup.mpr hplive
            have hpoint : ∀ c ∈ (f0.map (fun e => e.2)).dedup,
                (hitBy px py hr (P ++ [o]) c && (c.name == n)) =
                  ((hitBy px py hr P c || (c == plant)) && (c.name == n)) := by
              intro c hc
              rw [P1 c (List.mem_dedup.mp hc)]
            rw [countP_congr_list hpoint]
            rw [countP_extend (List.nodup_dedup _) hplantmem
              (fun c => hitBy px py hr P c) (fun c => c.name == n) hPq]
            have hitename : (if (plant.name == n) then 1 else 0) =
                (if n = plant.name then 1 else 0) := by
              by_cases h : n = plant.name
              · simp [h]
              · have h2 : (plant.name == n) = false := by
                  simp [Ne.symm h]
                rw [h2, if_neg h]
                rfl
            rw [hitename]
            omega

/-- Folding any suffix of the scan from a mid-scan state lands on the
state of the full processed prefix. -/
theorem harvest_fold_char (px py : Int) (hr : Nat) {f0 : FieldIndex}
    (hWF : fieldWF f0) (items0 : InvMap) :
    ∀ (Q P : List (Int × Int)) (inv : InvMap),
      (∀ n, icount n inv = icount n items0 +
         ((f0.map (fun e => e.2)).dedup.countP
            (fun c => hitBy px py hr P c && (c.name == n)))) →
      (Q.foldl (harvest_step px py hr)
          { plants := f0.filter (fun e => !hitBy px py hr P e.2), items := inv }).plants
        = f0.filter (fun e => !hitBy px py hr (P ++ Q) e.2) ∧
      ∀ n, icount n (Q.foldl (harvest_step px py hr)
          { plants := f0.filter (fun e => !hitBy px py hr P e.2), items := inv }).items
        = icount n items0 +
          ((f0.map (fun e => e.2)).dedup.countP
            (fun c => hitBy px py hr (P ++ Q) c && (c.name == n))) := by
  intro Q
  induction Q with
  | nil =>
    intro P inv hinv
    refine ⟨by simp, ?_⟩
    intro n
    simpa using hinv n
  | cons o Q ih =>
    intro P inv hinv
    rw [List.foldl_cons]
    obtain ⟨h1, h2⟩ := harvest_step_char px py hr hWF items0 inv P o hinv
    have hw1 : harvest_step px py hr
        { plants := f0.filter (fun e => !hitBy px py hr P e.2), items := inv } o =
        { plants := f0.filter (fun e => !hitBy px py hr (P ++ [o]) e.2),
          items := (harvest_step px py hr
            { plants := f0.filter (fun e => !hitBy px py hr P e.2),
              items := inv } o).items } := by
      rw [← h1]
    rw [hw1]
    have hres := ih (P ++ [o]) ((harvest_step px py hr
      { plants := f0.filter (fun e => !hitBy px py hr P e.2), items := inv } o).items) h2
    rw [List.append_assoc, List.singleton_append] at hres
    exact hres

/-- Full characterisation of GameWorld.handle_harvesting on a well-formed
field: the resulting dict is the original minus every entry of a hit
cultivar, and each hit cultivar is credited exactly one unit. -/
theorem handle_harvesting_char (w : WorldT) (px py : Int) (hr : Nat)
    (hWF : fieldWF w.plants) :
    (handle_harvesting w px py hr).plants =
      w.plants.filter (fun e => !hitBy px py hr (scan_offsets hr) e.2) ∧
    ∀ n, icount n (handle_harvesting w px py hr).items =
      icount n w.items + ((w.plants.map (fun e => e.2)).dedup.countP
        (fun c => hitBy px py hr (scan_offsets hr) c && (c.name == n))) := by
  obtain ⟨f0, inv0⟩ := w
  unfold handle_harvesting
  have hbase_plants : f0 = f0.filter (fun e => !hitBy px py hr [] e.2) := by
    symm
    apply List.filter_eq_self.mpr
    intro e he
    unfold hitBy
    simp
  have hbase_counts : ∀ n, icount n inv0 = icount n inv0 +
      ((f0.map (fun e => e.2)).dedup.countP
        (fun c => hitBy px py hr [] c && (c.name == n))) := by
    intro n
    have hpoint : ∀ c ∈ (f0.map (fun e => e.2)).dedup,
        (hitBy px py hr [] c && (c.name == n)) = ((fun _ => false) c) := by
      intro c _
      unfold hitBy
      simp
    rw [countP_congr_list hpoint, List.countP_false]
    rfl
  have hres := harvest_fold_char px py hr hWF inv0 (scan_offsets hr) [] inv0 hbase_counts
  rw [← hbase_plants, List.nil_append] at hres
  exact hres

/-- Membership in the harvesting scan window. -/
theorem mem_scan_offsets {hr : Nat} {o : Int × Int} :
    o ∈ scan_offsets hr ↔
      (-(hr : Int) ≤ o.1 ∧ o.1 ≤ hr ∧ -(hr : Int) ≤ o.2 ∧ o.2 ≤ hr) := by
  unfold scan_offsets
  simp only [List.mem_flatMap, List.mem_map, mem_intRange]
  constructor
  · rintro ⟨dy, ⟨h1, h2⟩, dx, ⟨h3, h4⟩, rfl⟩
    exact ⟨by omega, by omega, by omega, by omega⟩
  · rintro ⟨h1, h2, h3, h4⟩
    refine ⟨o.2, ⟨by omega, by omega⟩, o.1, ⟨by omega, by omega⟩, ?_⟩
    exact Prod.mk.eta

/-- The scan hits a cultivar exactly when it is harvestable and some
footprint tile lies within Euclidean distance hr of the player tile
(squared-distance comparison, exact for integer offsets). -/
theorem hitBy_scan_iff (px py : Int) (hr : Nat) (c : Cultivar) :
    hitBy px py hr (scan_offsets hr) c = true ↔
      (c.harvestable = true ∧ ∃ t ∈ get_occupied_tiles c,
         (t.1 - px) * (t.1 - px) + (t.2 - py) * (t.2 - py) ≤ (hr : Int) * (hr : Int)) := by
  unfold hitBy in_scan_range
  simp only [Bool.and_eq_true, List.any_eq_true, decide_eq_true_eq]
  constructor
  · rintro ⟨hharv, o, hmem, hin, hocc⟩
    refine ⟨hharv, (px + o.1, py + o.2), hocc, ?_⟩
    have e1 : px + o.1 - px = o.1 := by ring
    have e2 : py + o.2 - py = o.2 := by ring
    simp only [e1, e2]
    exact hin
  · rintro ⟨hharv, t, htocc, hdist⟩
    refine ⟨hharv, (t.1 - px, t.2 - py), ?_, hdist, ?_⟩
    · rw [mem_scan_offsets]
      dsimp only
      refine ⟨?_, ?_, ?_, ?_⟩ <;> nlinarith [hdist, Int.natCast_nonneg hr,
        mul_self_nonneg (t.1 - px), mul_self_nonneg (t.2 - py)]
    · have e1 : px + (t.1 - px) = t.1 := by ring
      have e2 : py + (t.2 - py) = t.2 := by ring
      simp only [e1, e2]
      rw [Prod.mk.eta]
      exact htocc

/-- Specialisation of the filter-lookup lemma to the hit predicate. -/
theorem flookup_filter_hit {f : FieldIndex} (hnd : (fkeys f).Nodup)
    (px py : Int) (hr : Nat) (P : List (Int × Int)) (t : Int × Int) :
    flookup t (f.filter (fun e => !hitBy px py hr P e.2)) =
      (flookup t f).bind
        (fun c => if !hitBy px py hr P c then some c else none) :=
  flookup_filter_val hnd (fun c => !hitBy px py hr P c) t

/-- Boolean form of the scan-hit condition. -/
theorem hitBy_scan_eq_eucl (px py : Int) (hr : Nat) (c : Cultivar) :
    hitBy px py hr (scan_offsets hr) c =
      (c.harvestable && (get_occupied_tiles c).any (fun t =>
        decide ((t.1 - px) * (t.1 - px) + (t.2 - py) * (t.2 - py)
          ≤ (hr : Int) * (hr : Int)))) := by
  cases h1 : hitBy px py hr (scan_offsets hr) c with
  | true =>
    obtain ⟨hh, t, ht, hd⟩ := (hitBy_scan_iff px py hr c).mp h1
    symm
    rw [hh]
    simp only [Bool.true_and, List.any_eq_true, decide_eq_true_eq]
    exact ⟨t, ht, hd⟩
  | false =>
    symm
    by_contra hcon
    have h2 : (c.harvestable && (get_occupied_tiles c).any (fun t =>
        decide ((t.1 - px) * (t.1 - px) + (t.2 - py) * (t.2 - py)
          ≤ (hr : Int) * (hr : Int)))) = true := by
      cases h3 : (c.harvestable && (get_occupied_tiles c).any (fun t =>
          decide ((t.1 - px) * (t.1 - px) + (t.2 - py) * (t.2 - py)
            ≤ (hr : Int) * (hr : Int))))
      · exact absurd h3 hcon
      · rfl
    rw [Bool.and_eq_true] at h2
    obtain ⟨hh, hany⟩ := h2
    rw [List.any_eq_true] at hany
    obtain ⟨t, ht, hd⟩ := hany
    rw [decide_eq_true_eq] at hd
    have := (hitBy_scan_iff px py hr c).mpr ⟨hh, t, ht, hd⟩
    rw [h1] at this
    cases this

/-! ## Claim C4 -/

/-- C4: on a well-formed field (the FieldIndex invariant of the data
model, which holds in every reachable state), one harvesting call at the
player tile with radius hr removes every harvestable cultivar that has a
footprint tile within Euclidean distance hr from all tiles of its full
footprint, credits exactly one unit of its item per such cultivar (never
two, even when several footprint tiles are in range), and leaves every
other entry of the dict exactly in place. -/
theorem c4_harvest_full_footprint_once (w : WorldT) (px py : Int) (hr : Nat)
    (hWF : fieldWF w.plants) :
    (∀ c, liveIn w.plants c → c.harvestable = true →
       (∃ t ∈ get_occupied_tiles c,
          (t.1 - px) * (t.1 - px) + (t.2 - py) * (t.2 - py) ≤ (hr : Int) * (hr : Int)) →
       ∀ t ∈ get_occupied_tiles c,
         flookup t (handle_harvesting w px py hr).plants = none) ∧
    (∀ n, icount n (handle_harvesting w px py hr).items =
       icount n w.items +
         ((w.plants.map (fun e => e.2)).dedup.countP (fun c =>
            c.harvestable && (get_occupied_tiles c).any (fun t =>
              decide ((t.1 - px) * (t.1 - px) + (t.2 - py) * (t.2 - py)
                ≤ (hr : Int) * (hr : Int))) &&
            (c.name == n)))) ∧
    (∀ t c, flookup t (handle_harvesting w px py hr).plants = some c →
       flookup t w.plants = some c ∧
       ¬ (c.harvestable = true ∧ ∃ t2 ∈ get_occupied_tiles c,
            (t2.1 - px) * (t2.1 - px) + (t2.2 - py) * (t2.2 - py)
              ≤ (hr : Int) * (hr : Int))) := by
  obtain ⟨hpl, hcnt⟩ := handle_harvesting_char w px py hr hWF
  refine ⟨?_, ?_, ?_⟩
  · intro c hl hh hex t ht
    rw [hpl, flookup_filter_hit hWF.1, fieldWF_complete_live hWF hl ht]
    have hhit : hitBy px py hr (scan_offsets hr) c = true :=
      (hitBy_scan_iff px py hr c).mpr ⟨hh, hex⟩
    simp [hhit]
  · intro n
    rw [hcnt n]
    congr 1
    apply countP_congr_list
    intro c _
    rw [hitBy_scan_eq_eucl px py hr c]
  · intro t c hsome
    rw [hpl, flookup_filter_hit hWF.1] at hsome
    cases hft : flookup t w.plants with
    | none =>
      rw [hft] at hsome
      cases hsome
    | some c0 =>
      rw [hft] at hsome
      simp only [Option.some_bind] at hsome
      cases hhit : hitBy px py hr (scan_offsets hr) c0 with
      | true =>
        rw [hhit] at hsome
        simp at hsome
      | false =>
        rw [hhit] at hsome
        simp only [Bool.not_false, if_true] at hsome
        have hc : c0 = c := by
          injection hsome
        subst hc
        refine ⟨rfl, ?_⟩
        intro hcl
        have := (hitBy_scan_iff px py hr c0).mpr hcl
        rw [hhit] at this
        cases this

/-- Ripe 1x1 cultivar planted at (5, 6), used in the C4 witness. -/
def ripeDemo : Cultivar :=
  { name := ("Radish"), shape := .rectangle, w := 1, h := 1, x := 5, y := 6,
    harvestable := true }

/-- Concrete world holding just the ripe cultivar at (5, 6). -/
def demoWorld : WorldT :=
  { plants := [((5, 6), ripeDemo)], items := [] }

/-- Witness for c4_harvest_full_footprint_once: player at (5, 5), radius
1, one ripe cultivar at distance 1. -/
theorem c4_harvest_full_footprint_once_witness :
    (∀ c, liveIn demoWorld.plants c → c.harvestable = true →
       (∃ t ∈ get_occupied_tiles c,
          (t.1 - 5) * (t.1 - 5) + (t.2 - 5) * (t.2 - 5) ≤ ((1 : Nat) : Int) * ((1 : Nat) : Int)) →
       ∀ t ∈ get_occupied_tiles c,
         flookup t (handle_harvesting demoWorld 5 5 1).plants = none) ∧
    (∀ n, icount n (handle_harvesting demoWorld 5 5 1).items =
       icount n demoWorld.items +
         ((demoWorld.plants.map (fun e => e.2)).dedup.countP (fun c =>
            c.harvestable && (get_occupied_tiles c).any (fun t =>
              decide ((t.1 - 5) * (t.1 - 5) + (t.2 - 5) * (t.2 - 5)
                ≤ ((1 : Nat) : Int) * ((1 : Nat) : Int))) &&
            (c.name == n)))) ∧
    (∀ t c, flookup t (handle_harvesting demoWorld 5 5 1).plants = some c →
       flookup t demoWorld.plants = some c ∧
       ¬ (c.harvestable = true ∧ ∃ t2 ∈ get_occupied_tiles c,
            (t2.1 - 5) * (t2.1 - 5) + (t2.2 - 5) * (t2.2 - 5)
              ≤ ((1 : Nat) : Int) * ((1 : Nat) : Int))) :=
  c4_harvest_full_footprint_once demoWorld 5 5 1 (by decide)

/-! ## Field invariant preservation and claim C1 -/

/-- Harvesting preserves the FieldIndex invariant. -/
theorem fieldWF_handle_harvesting (w : WorldT) (px py : Int) (hr : Nat)
    (hWF : fieldWF w.plants) : fieldWF (handle_harvesting w px py hr).plants := by
  obtain ⟨hpl, _⟩ := handle_harvesting_char w px py hr hWF
  rw [hpl]
  refine ⟨fkeys_filter_nodup hWF.1 _, ?_, ?_⟩
  · intro e he
    exact hWF.2.1 e (List.mem_of_mem_filter he)
  · intro e he t ht
    have hmem : e ∈ w.plants := (List.mem_filter.mp he).1
    have hq : (!hitBy px py hr (scan_offsets hr) e.2) = true := (List.mem_filter.mp he).2
    rw [flookup_filter_hit hWF.1, hWF.2.2 e hmem t ht]
    simp only [Option.some_bind, hq, if_true]

/-- The growth tick (raising harvestable flags consistently across all
aliases of each plant object) preserves the FieldIndex invariant. -/
theorem fieldWF_tick (f : FieldIndex) (g : Cultivar → Bool) (hWF : fieldWF f) :
    fieldWF (f.map (fun e => (e.1, tick_update g e.2))) := by
  refine ⟨?_, ?_, ?_⟩
  · show (fkeys (f.map (fun e => (e.1, tick_update g e.2)))).Nodup
    rw [fkeys_map_value (tick_update g) f]
    exact hWF.1
  · intro e he
    rcases List.mem_map.mp he with ⟨e0, he0, heq⟩
    rw [← heq]
    simp only
    rw [occ_tick_update]
    exact hWF.2.1 e0 he0
  · intro e he t ht
    rcases List.mem_map.mp he with ⟨e0, he0, heq⟩
    rw [flookup_map_value (tick_update g) f]
    rw [← heq] at ht ⊢
    simp only at ht ⊢
    rw [occ_tick_update] at ht
    rw [hWF.2.2 e0 he0 t ht]
    rfl

/-- A successful rectangle planting preserves the FieldIndex invariant:
the validated box is exactly the footprint, so every registered tile was
checked free. -/
theorem fieldWF_plant (m : MapGrid) (f : FieldIndex) (c : Cultivar)
    (hs : c.shape = Shape.rectangle)
    (hcan : can_plant_at m f c.x c.y c.w c.h = true)
    (hWF : fieldWF f) : fieldWF (register_plant c f) := by
  have hocc : get_occupied_tiles c = checked_tiles c.x c.y c.w c.h :=
    occ_rectangle_eq_checked c hs
  have hfresh : ∀ t ∈ get_occupied_tiles c, flookup t f = none := by
    intro t ht
    rw [hocc] at ht
    unfold can_plant_at at hcan
    rw [List.all_eq_true] at hcan
    have hchecked := hcan t ht
    rw [Bool.and_eq_true, Bool.and_eq_true] at hchecked
    exact Option.isNone_iff_eq_none.mp hchecked.2
  unfold register_plant
  refine ⟨fkeys_foldl_fset_nodup _ c f hWF.1, ?_, ?_⟩
  · intro e he
    rcases mem_foldl_fset _ c f e he with h1 | h1
    · exact hWF.2.1 e h1
    · rw [h1.2]
      exact h1.1
  · intro e he t ht
    rw [flookup_foldl_fset]
    rcases mem_foldl_fset _ c f e he with h1 | h1
    · have hno : t ∉ get_occupied_tiles c := by
        intro hin
        have hsome := hWF.2.2 e h1 t ht
        rw [hfresh t hin] at hsome
        cases hsome
      rw [if_neg hno]
      exact hWF.2.2 e h1 t ht
    · rw [h1.2] at ht ⊢
      rw [if_pos ht]

/-- Any transaction step with a rectangle plant type preserves the
FieldIndex invariant. -/
theorem fieldWF_stepW (m : MapGrid) (w : WorldT) (op : Op)
    (hop : plantRectB op = true) (hWF : fieldWF w.plants) :
    fieldWF (stepW m w op).plants := by
  cases op with
  | plant name shape pw ph x y =>
    simp only [stepW]
    by_cases hcan : can_plant_at m w.plants x y pw ph = true
    · rw [if_pos hcan]
      apply fieldWF_plant m w.plants _ ?_ ?_ hWF
      · unfold plantRectB at hop
        rw [decide_eq_true_eq] at hop
        exact hop
      · exact hcan
    · rw [if_neg hcan]
      exact hWF
  | harvest px py r =>
    exact fieldWF_handle_harvesting w px py r hWF
  | tick g =>
    exact fieldWF_tick w.plants g hWF

/-- The FieldIndex invariant holds after running any transaction sequence
with rectangle plant types from the empty field. -/
theorem runWorld_WF (m : MapGrid) (ops : List Op)
    (hops : ∀ op ∈ ops, plantRectB op = true) :
    fieldWF (runWorld m ops).plants := by
  unfold runWorld
  have haux : ∀ (ops2 : List Op) (w : WorldT), (∀ op ∈ ops2, plantRectB op = true) →
      fieldWF w.plants → fieldWF (ops2.foldl (stepW m) w).plants := by
    intro ops2
    induction ops2 with
    | nil =>
      intro w _ hw
      exact hw
    | cons op ops2 ih =>
      intro w hall hw
      rw [List.foldl_cons]
      exact ih _ (fun o ho => hall o (List.mem_cons_of_mem _ ho))
        (fieldWF_stepW m w op (hall op (List.mem_cons_self _ _)) hw)
  apply haux ops _ hops
  refine ⟨List.nodup_nil, ?_, ?_⟩ <;> intro e he <;> cases he

/-! ## Claim C1 -/

/-- C1: after any sequence of transactions from the empty field (all
catalog plant types are rectangle-shaped, expressed by the plantRectB
hypothesis), every tile key of the plants dict maps to exactly one live
cultivar whose footprint includes that key, and no tile is claimed by two
live cultivars. -/
theorem c1_occupancy_mutual_exclusion (m : MapGrid) (ops : List Op)
    (hops : ∀ op ∈ ops, plantRectB op = true) :
    (∀ t c, flookup t (runWorld m ops).plants = some c →
       t ∈ get_occupied_tiles c ∧ liveIn (runWorld m ops).plants c ∧
       ∀ c2, liveIn (runWorld m ops).plants c2 → t ∈ get_occupied_tiles c2 →
         c2 = c) ∧
    (∀ c c2 t, liveIn (runWorld m ops).plants c →
       liveIn (runWorld m ops).plants c2 →
       t ∈ get_occupied_tiles c → t ∈ get_occupied_tiles c2 → c = c2) := by
  have hWF := runWorld_WF m ops hops
  constructor
  · intro t c hsome
    have hmem := flookup_mem hsome
    refine ⟨hWF.2.1 (t, c) hmem, liveIn_of_mem hmem, ?_⟩
    intro c2 hl2 ht2
    have h1 := fieldWF_complete_live hWF hl2 ht2
    rw [hsome] at h1
    have h2 : c = c2 := by
      injection h1
    exact h2.symm
  · intro c c2 t hl hl2 ht ht2
    exact fieldWF_disjoint hWF hl hl2 ht ht2

/-- Transaction list used in the C1 witness: plant a 1x1 Radish at
(20, 20), ripen everything, harvest around (20, 20). -/
def demoOps : List Op :=
  [Op.plant ("Radish") Shape.rectangle 1 1 20 20,
   Op.tick (fun _ => true),
   Op.harvest 20 20 1]

/-- Witness for c1_occupancy_mutual_exclusion on the concrete transaction
list and grid. -/
theorem c1_occupancy_mutual_exclusion_witness :
    (∀ t c, flookup t (runWorld demoGrid demoOps).plants = some c →
       t ∈ get_occupied_tiles c ∧ liveIn (runWorld demoGrid demoOps).plants c ∧
       ∀ c2, liveIn (runWorld demoGrid demoOps).plants c2 →
         t ∈ get_occupied_tiles c2 → c2 = c) ∧
    (∀ c c2 t, liveIn (runWorld demoGrid demoOps).plants c →
       liveIn (runWorld demoGrid demoOps).plants c2 →
       t ∈ get_occupied_tiles c → t ∈ get_occupied_tiles c2 → c = c2) :=
  c1_occupancy_mutual_exclusion demoGrid demoOps (by decide)
